import Mathlib

/-!
Verification of the Serie A pairing engine (`engine.py`).

The engine is a pure function of players and history snapshots, except for
its use of `random.shuffle`.  Each call of `random.shuffle` is modelled by an
explicit oracle function `List α → List α`; theorems assume that every oracle
returns a permutation of its input, which is exactly the contract of
`random.shuffle`.  Integer arithmetic in the scorer is modelled with `Int`
(the Python code only ever adds integer quantities to its float score).
-/

/-- A player record: `{id, name, gender}` as consumed by the engine. -/
structure Player where
  id : Nat
  name : String
  gender : String
deriving Repr, DecidableEq

instance : Inhabited Player := ⟨⟨0, "", ""⟩⟩

/-- A match record produced by the engine: court number and two teams,
each a list of player records (always two players). -/
structure Match where
  court : Nat
  team1 : List Player
  team2 : List Player
deriving Repr, DecidableEq

instance : Inhabited Match := ⟨⟨0, [], []⟩⟩

/-- Canonical unordered-pair key `(min(a, b), max(a, b))` used throughout
`engine.py` for partnership and opponent lookups. -/
def pairKey (a b : Nat) : Nat × Nat := (min a b, max a b)

/-- The ids of a list of players, in order. -/
def ids (l : List Player) : List Nat := l.map (fun p => p.id)

/-- The ids occurring in a list of pairs, in order of appearance. -/
def pairIds : List (Player × Player) → List Nat
  | [] => []
  | p :: l => p.1.id :: p.2.id :: pairIds l

/-- The ids of the four slots of one match, team1 then team2. -/
def matchIds (m : Match) : List Nat := (m.team1 ++ m.team2).map (fun p => p.id)

/-- All ids appearing in a list of matches, in order. -/
def roundIds : List Match → List Nat
  | [] => []
  | m :: ms => matchIds m ++ roundIds ms

/-- The oracles standing for the `random.shuffle` calls performed during one
`_generate_candidate` attempt (shuffle of the player pool, the two shuffles
inside `_form_pairs`, the leftover shuffle, and the pair-list shuffle). -/
structure CandRng where
  shufflePlayers : List Player → List Player
  shuffleMales : List Player → List Player
  shuffleFemales : List Player → List Player
  shuffleLeftover : List Player → List Player
  shufflePairs : List (Player × Player) → List (Player × Player)

/-- A candidate oracle is valid when each component returns a permutation of
its input, as `random.shuffle` does. -/
def CandRng.Valid (r : CandRng) : Prop :=
  (∀ l, (r.shufflePlayers l).Perm l) ∧ (∀ l, (r.shuffleMales l).Perm l) ∧
  (∀ l, (r.shuffleFemales l).Perm l) ∧ (∀ l, (r.shuffleLeftover l).Perm l) ∧
  (∀ l, (r.shufflePairs l).Perm l)

/-- The oracles for one whole `generate_round` call: the selector's shuffle,
one `CandRng` per attempt index, and the fallback's shuffle. -/
structure RoundRng where
  select : List Player → List Player
  cand : Nat → CandRng
  fallback : List Player → List Player

/-- Validity of a round oracle: every component permutes its input. -/
def RoundRng.Valid (r : RoundRng) : Prop :=
  (∀ l, (r.select l).Perm l) ∧ (∀ t, (r.cand t).Valid) ∧
  (∀ l, (r.fallback l).Perm l)

/-- `_select_players`: return the whole list if it is small enough, otherwise
stable-sort the shuffled copy ascending by games played (missing entries are
impossible here because the map is modelled as a total function defaulting
to 0) and take the first `needed`.  `shuffled` is the oracle's output for the
`random.shuffle(shuffled)` call. -/
def selectPlayers (players : List Player) (needed : Nat) (gp : Nat → Nat)
    (shuffled : List Player) : List Player :=
  if players.length ≤ needed then players
  else (shuffled.mergeSort (fun a b => decide (gp a.id ≤ gp b.id))).take needed

/-- Inner scan of `_form_pairs` pass 1: for one male, find the first female
that is not yet used and whose canonical pair with him is not a past
partnership. -/
def findFemale (pp : Nat × Nat → Bool) (m : Player) (usedF : List Nat) :
    List Player → Option Player
  | [] => none
  | f :: fs =>
    if f.id ∈ usedF then findFemale pp m usedF fs
    else if pp (pairKey m.id f.id) then findFemale pp m usedF fs
    else some f

/-- The running state of `_form_pairs`: the accumulated pair list and the
`used_m` / `used_f` id sets (modelled as lists, membership only). -/
structure PairState where
  pairs : List (Player × Player)
  usedM : List Nat
  usedF : List Nat
deriving Repr

/-- Pass 1 of `_form_pairs`: walk the males in order, pairing each with the
first unused female avoiding past partnerships. -/
def pass1 (pp : Nat × Nat → Bool) (females : List Player) :
    List Player → PairState → PairState
  | [], st => st
  | m :: rest, st =>
    match findFemale pp m st.usedF females with
    | some f =>
      pass1 pp females rest
        ⟨st.pairs ++ [(m, f)], st.usedM ++ [m.id], st.usedF ++ [f.id]⟩
    | none => pass1 pp females rest st

/-- Inner scan of `_form_pairs` pass 2: the first female of the remaining
list not yet used (past partnerships are allowed in this pass). -/
def findUnused (usedF : List Nat) : List Player → Option Player
  | [] => none
  | f :: fs => if f.id ∈ usedF then findUnused usedF fs else some f

/-- Pass 2 of `_form_pairs`: pair the remaining males with remaining females
regardless of history. -/
def pass2 (remF : List Player) : List Player → PairState → PairState
  | [], st => st
  | m :: rest, st =>
    match findUnused st.usedF remF with
    | some f =>
      pass2 remF rest
        ⟨st.pairs ++ [(m, f)], st.usedM ++ [m.id], st.usedF ++ [f.id]⟩
    | none => pass2 remF rest st

/-- Index search of `_form_pairs` pass 3: position of the first leftover
player forming a novel pair with `p1`, if any. -/
def findNovelIdx (pp : Nat × Nat → Bool) (p1 : Player) : List Player → Option Nat
  | [] => none
  | p2 :: rest =>
    if pp (pairKey p1.id p2.id) then (findNovelIdx pp p1 rest).map (fun i => i + 1)
    else some 0

/-- The `best_idx` of `_form_pairs` pass 3: the found novel index, or 0. -/
def pass3Idx (pp : Nat × Nat → Bool) (p1 : Player) (rest : List Player) : Nat :=
  (findNovelIdx pp p1 rest).getD 0

/-- Pass 3 of `_form_pairs`: while at least two leftovers remain, pop the
last (`p1`), pick a partner at `best_idx` (first novel partner, else index
0), remove it, and emit the pair. -/
def pass3 (pp : Nat × Nat → Bool) (leftover : List Player) :
    List (Player × Player) :=
  if h : 2 ≤ leftover.length then
    (leftover.getLastD default,
      leftover.dropLast.getD
        (pass3Idx pp (leftover.getLastD default) leftover.dropLast) default) ::
      pass3 pp (leftover.dropLast.eraseIdx
        (pass3Idx pp (leftover.getLastD default) leftover.dropLast))
  else []
  termination_by leftover.length
  decreasing_by
    have h1 := List.length_eraseIdx leftover.dropLast
      (pass3Idx pp (leftover.getLastD default) leftover.dropLast)
    have h2 := List.length_dropLast leftover
    split at h1 <;> omega

/-- `_form_pairs`: shuffle both gender groups, run the three passes, and
return the accumulated pair list.  `σM`, `σF`, `σL` are the oracles for the
three `random.shuffle` calls. -/
def formPairs (males females : List Player) (pp : Nat × Nat → Bool)
    (σM σF σL : List Player → List Player) : List (Player × Player) :=
  let ms := σM males
  let fs := σF females
  let st1 := pass1 pp fs ms ⟨[], [], []⟩
  let st2 := pass2 (fs.filter (fun f => decide (f.id ∉ st1.usedF)))
    (ms.filter (fun m => decide (m.id ∉ st1.usedM))) st1
  st2.pairs ++ pass3 pp (σL
    (ms.filter (fun m => decide (m.id ∉ st2.usedM)) ++
     fs.filter (fun f => decide (f.id ∉ st2.usedF))))

/-- The pair list built by `_generate_candidate` before the length check:
shuffle the pool, split by gender tag, and form pairs. -/
def candPairs (players : List Player) (pp : Nat × Nat → Bool)
    (rng : CandRng) : List (Player × Player) :=
  formPairs ((rng.shufflePlayers players).filter (fun p => decide (p.gender = "M")))
    ((rng.shufflePlayers players).filter (fun p => decide (p.gender = "F")))
    pp rng.shuffleMales rng.shuffleFemales rng.shuffleLeftover

/-- The match-building loop of `_generate_candidate`: for `i` in
`range(num_matches)`, team1 is `pairs[i*2]` and team2 is `pairs[i*2+1]`,
with court number `i + 1`. -/
def buildMatches (pairs : List (Player × Player)) (numMatches : Nat) :
    List Match :=
  (List.range numMatches).map fun i =>
    { court := i + 1
      team1 := [(pairs.getD (i * 2) default).1, (pairs.getD (i * 2) default).2]
      team2 := [(pairs.getD (i * 2 + 1) default).1,
                (pairs.getD (i * 2 + 1) default).2] }

/-- `_generate_candidate`: form pairs, fail with `none` when fewer than
`2 * num_matches` pairs exist, otherwise shuffle the pair list and group
consecutive pairs into matches. -/
def generateCandidate (players : List Player) (numMatches : Nat)
    (pp : Nat × Nat → Bool) (rng : CandRng) : Option (List Match) :=
  if (candPairs players pp rng).length < numMatches * 2 then none
  else some (buildMatches (rng.shufflePairs (candPairs players pp rng)) numMatches)

/-- The canonical key of a two-player team, from its first two slots. -/
def teamPairKey (t : List Player) : Nat × Nat :=
  pairKey (t.getD 0 default).id (t.getD 1 default).id

/-- Total wins of a team: sum of the wins map over its players. -/
def teamWins (wins : Nat → Nat) (t : List Player) : Int :=
  (t.map (fun p => (wins p.id : Int))).sum

/-- The contribution of one match to `_score_candidate`, in source order:
partnership penalties, opponent penalties, mixed-gender bonuses, and the
skill-balance penalty. -/
def scoreMatch (pp : Nat × Nat → Bool) (po : Nat × Nat → Nat)
    (wins : Nat → Nat) (m : Match) : Int :=
  (if pp (teamPairKey m.team1) then -100 else 0)
  + (if pp (teamPairKey m.team2) then -100 else 0)
  - (m.team1.map (fun p1 =>
      (m.team2.map (fun p2 => (po (pairKey p1.id p2.id) : Int) * 10)).sum)).sum
  + (if (m.team1.getD 0 default).gender ≠ (m.team1.getD 1 default).gender
      then 15 else 0)
  + (if (m.team2.getD 0 default).gender ≠ (m.team2.getD 1 default).gender
      then 15 else 0)
  - |teamWins wins m.team1 - teamWins wins m.team2| * 2

/-- `_score_candidate`: fold the per-match contributions over the candidate,
starting from 0. -/
def scoreCandidate (cand : List Match) (pp : Nat × Nat → Bool)
    (po : Nat × Nat → Nat) (wins : Nat → Nat) : Int :=
  cand.foldl (fun score m => score + scoreMatch pp po wins m) 0

/-- One iteration of the attempt loop in `generate_round`: generate a
candidate with attempt `t`'s randomness; an invalid candidate is skipped; a
valid one replaces the best only when its score is strictly greater
(`best = none` stands for the initial `-inf` best score). -/
def attemptStep (playing : List Player) (numMatches : Nat)
    (pp : Nat × Nat → Bool) (po : Nat × Nat → Nat) (wins : Nat → Nat)
    (rng : Nat → CandRng) (best : Option (Int × List Match)) (t : Nat) :
    Option (Int × List Match) :=
  match generateCandidate playing numMatches pp (rng t) with
  | none => best
  | some c =>
    match best with
    | none => some (scoreCandidate c pp po wins, c)
    | some (bs, bm) =>
      if bs < scoreCandidate c pp po wins then some (scoreCandidate c pp po wins, c)
      else some (bs, bm)

/-- The attempt loop of `generate_round`: fold `attemptStep` over the
attempt indices `0, …, num_attempts - 1`. -/
def attemptLoop (playing : List Player) (numMatches : Nat)
    (pp : Nat × Nat → Bool) (po : Nat × Nat → Nat) (wins : Nat → Nat)
    (rng : Nat → CandRng) (numAttempts : Nat) : Option (Int × List Match) :=
  (List.range numAttempts).foldl
    (attemptStep playing numMatches pp po wins rng) none

/-- The loop of `_generate_fallback`: slice consecutive groups of four from
the shuffled pool, stopping early if a group is incomplete; the first two of
a group are team1, the last two team2. -/
def fallbackGo (shuffled : List Player) : Nat → Nat → List Match
  | 0, _ => []
  | k + 1, i =>
    if ((shuffled.drop (i * 4)).take 4).length < 4 then []
    else
      { court := i + 1
        team1 := ((shuffled.drop (i * 4)).take 4).take 2
        team2 := (((shuffled.drop (i * 4)).take 4).drop 2).take 2 } ::
        fallbackGo shuffled k (i + 1)

/-- `_generate_fallback`: shuffle the pool once (the oracle's output is the
`shuffled` argument) and slice it into matches. -/
def generateFallback (shuffled : List Player) (numMatches : Nat) : List Match :=
  fallbackGo shuffled numMatches 0

/-- `max_matches = min(num_courts, len(players) // 4)`. -/
def maxMatchesOf (players : List Player) (numCourts : Nat) : Nat :=
  min numCourts (players.length / 4)

/-- The playing subset resolved by `generate_round`: all players when
selection is skipped, otherwise the selector's output for
`max_matches * 4` players. -/
def playingOf (players : List Player) (numCourts : Nat) (gp : Nat → Nat)
    (rng : RoundRng) (skipSelection : Bool) : List Player :=
  if skipSelection then players
  else selectPlayers players (maxMatchesOf players numCourts * 4) gp
    (rng.select players)

/-- `generate_round`: guard the two empty cases, resolve the playing subset,
run the attempt loop, and fall back to `_generate_fallback` when no attempt
produced a valid candidate. -/
def generateRound (players : List Player) (numCourts : Nat)
    (pp : Nat × Nat → Bool) (po : Nat × Nat → Nat) (gp : Nat → Nat)
    (wins : Nat → Nat) (rng : RoundRng) (numAttempts : Nat)
    (skipSelection : Bool) : List Match :=
  if players.length < 4 then []
  else if maxMatchesOf players numCourts = 0 then []
  else
    match attemptLoop (playingOf players numCourts gp rng skipSelection)
        (maxMatchesOf players numCourts) pp po wins rng.cand numAttempts with
    | some (_, m) => m
    | none =>
      generateFallback
        (rng.fallback (playingOf players numCourts gp rng skipSelection))
        (maxMatchesOf players numCourts)

/-- The identity oracle: a degenerate but valid shuffle (the identity is a
permutation). -/
def idCandRng : CandRng :=
  ⟨fun l => l, fun l => l, fun l => l, fun l => l, fun l => l⟩

/-- The identity round oracle. -/
def idRoundRng : RoundRng := ⟨fun l => l, fun _ => idCandRng, fun l => l⟩

/-- Invariant of `_form_pairs`' running state: `used_m`/`used_f` are exactly
the first/second components of the accumulated pairs, no id occurs twice in
the accumulated pairs, and the two pair slots draw from two fixed disjoint
id pools (the male ids and the female ids). -/
def PairInv (Mids Fids : List Nat) (st : PairState) : Prop :=
  st.usedM = st.pairs.map (fun p => p.1.id) ∧
  st.usedF = st.pairs.map (fun p => p.2.id) ∧
  (pairIds st.pairs).Nodup ∧
  (∀ p ∈ st.pairs, p.1.id ∈ Mids) ∧
  (∀ p ∈ st.pairs, p.2.id ∈ Fids)

/-- The per-match score as the specification words it: −100 for each of the
two teams whose canonical pair is a past partnership, −10 × count for each
of the four cross-team pairs, +15 per mixed-gender team, and
−2 × |team1 wins − team2 wins| (missing map entries are 0 because the maps
are modelled as total functions).  `a, b` are team1's players and `c, d`
team2's. -/
def specMatchScore (pp : Nat × Nat → Bool) (po : Nat × Nat → Nat)
    (wins : Nat → Nat) (a b c d : Player) : Int :=
  (if pp (pairKey a.id b.id) then -100 else 0) +
  (if pp (pairKey c.id d.id) then -100 else 0) -
  10 * ((po (pairKey a.id c.id) : Int) + (po (pairKey a.id d.id) : Int) +
        (po (pairKey b.id c.id) : Int) + (po (pairKey b.id d.id) : Int)) +
  (if a.gender ≠ b.gender then 15 else 0) +
  (if c.gender ≠ d.gender then 15 else 0) -
  2 * |((wins a.id : Int) + (wins b.id : Int)) -
       ((wins c.id : Int) + (wins d.id : Int))|

/-- A concrete eight-player pool (four of each gender tag) used to witness
the theorems on concrete inputs. -/
def samplePlayers : List Player :=
  [⟨1, "a", "M"⟩, ⟨2, "b", "M"⟩, ⟨3, "c", "M"⟩, ⟨4, "d", "M"⟩,
   ⟨5, "e", "F"⟩, ⟨6, "f", "F"⟩, ⟨7, "g", "F"⟩, ⟨8, "h", "F"⟩]

/-- A concrete five-player pool. -/
def fivePlayers : List Player :=
  [⟨1, "a", "M"⟩, ⟨2, "b", "M"⟩, ⟨3, "c", "F"⟩, ⟨4, "d", "F"⟩,
   ⟨5, "e", "F"⟩]

/-- The empty partnership history. -/
def emptyPP : Nat × Nat → Bool := fun _ => false

/-- The empty opponent-count history. -/
def zeroPO : Nat × Nat → Nat := fun _ => 0

/-- The empty games-played / wins map. -/
def zeroMap : Nat → Nat := fun _ => 0

/-- The round the identity oracles produce from `samplePlayers` with two
courts: consecutive mixed pairs grouped in order. -/
def sampleBest : List Match :=
  [⟨1, [⟨1, "a", "M"⟩, ⟨5, "e", "F"⟩], [⟨2, "b", "M"⟩, ⟨6, "f", "F"⟩]⟩,
   ⟨2, [⟨3, "c", "M"⟩, ⟨7, "g", "F"⟩], [⟨4, "d", "M"⟩, ⟨8, "h", "F"⟩]⟩]

/-- One concrete match with two 2-player teams. -/
def sampleMatch : Match :=
  ⟨1, [⟨1, "a", "M"⟩, ⟨5, "e", "F"⟩], [⟨2, "b", "M"⟩, ⟨6, "f", "F"⟩]⟩

theorem idCandRng_valid : idCandRng.Valid :=
  ⟨fun _ => List.Perm.refl _, fun _ => List.Perm.refl _, fun _ => List.Perm.refl _,
   fun _ => List.Perm.refl _, fun _ => List.Perm.refl _⟩

theorem idRoundRng_valid : idRoundRng.Valid :=
  ⟨fun _ => List.Perm.refl _, fun _ => idCandRng_valid, fun _ => List.Perm.refl _⟩

/-! ### Basic lemmas about id lists -/

theorem pairIds_append (l₁ l₂ : List (Player × Player)) :
    pairIds (l₁ ++ l₂) = pairIds l₁ ++ pairIds l₂ := by
  induction l₁ with
  | nil => rfl
  | cons p l ih => simp [pairIds, ih]

theorem mem_pairIds {x : Nat} {l : List (Player × Player)} :
    x ∈ pairIds l ↔ ∃ p ∈ l, x = p.1.id ∨ x = p.2.id := by
  induction l with
  | nil => simp [pairIds]
  | cons p l ih =>
    simp only [pairIds, List.mem_cons, ih]
    constructor
    · rintro (rfl | rfl | ⟨q, hq, h⟩)
      · exact ⟨p, Or.inl rfl, Or.inl rfl⟩
      · exact ⟨p, Or.inl rfl, Or.inr rfl⟩
      · exact ⟨q, Or.inr hq, h⟩
    · rintro ⟨q, (rfl | hq), h⟩
      · rcases h with rfl | rfl
        · exact Or.inl rfl
        · exact Or.inr (Or.inl rfl)
      · exact Or.inr (Or.inr ⟨q, hq, h⟩)

theorem perm_swap4 (a b c d : Nat) (L : List Nat) :
    (a :: b :: c :: d :: L).Perm (c :: d :: a :: b :: L) := by
  have h : (([a, b] : List Nat) ++ [c, d]).Perm ([c, d] ++ [a, b]) :=
    List.perm_append_comm
  simpa using h.append_right L

theorem pairIds_perm {l₁ l₂ : List (Player × Player)} (h : l₁.Perm l₂) :
    (pairIds l₁).Perm (pairIds l₂) := by
  induction h with
  | nil => exact List.Perm.refl _
  | cons p _ ih => exact (ih.cons _).cons _
  | swap p q l =>
    simp only [pairIds]
    exact perm_swap4 _ _ _ _ _
  | trans _ _ ih₁ ih₂ => exact ih₁.trans ih₂

theorem nodup_fst_of_pairIds_nodup {l : List (Player × Player)}
    (h : (pairIds l).Nodup) : (l.map (fun p => p.1.id)).Nodup := by
  induction l with
  | nil => simp
  | cons p l ih =>
    simp only [pairIds, List.nodup_cons] at h
    simp only [List.map_cons, List.nodup_cons]
    refine ⟨fun hc => h.1 ?_, ih h.2.2⟩
    rcases List.mem_map.mp hc with ⟨q, hq, hqe⟩
    exact List.mem_cons_of_mem _ (mem_pairIds.mpr ⟨q, hq, Or.inl hqe.symm⟩)

theorem nodup_snd_of_pairIds_nodup {l : List (Player × Player)}
    (h : (pairIds l).Nodup) : (l.map (fun p => p.2.id)).Nodup := by
  induction l with
  | nil => simp
  | cons p l ih =>
    simp only [pairIds, List.nodup_cons] at h
    simp only [List.map_cons, List.nodup_cons]
    refine ⟨fun hc => h.2.1 ?_, ih h.2.2⟩
    rcases List.mem_map.mp hc with ⟨q, hq, hqe⟩
    exact mem_pairIds.mpr ⟨q, hq, Or.inr hqe.symm⟩

theorem roundIds_append (l₁ l₂ : List Match) :
    roundIds (l₁ ++ l₂) = roundIds l₁ ++ roundIds l₂ := by
  induction l₁ with
  | nil => rfl
  | cons m l ih => simp [roundIds, ih, List.append_assoc]

theorem ids_append (l₁ l₂ : List Player) : ids (l₁ ++ l₂) = ids l₁ ++ ids l₂ :=
  List.map_append _ _ _

/-! ### Specifications of the scan helpers -/

theorem findFemale_some {pp : Nat × Nat → Bool} {m : Player} {usedF : List Nat}
    {fs : List Player} {f : Player} (h : findFemale pp m usedF fs = some f) :
    f ∈ fs ∧ f.id ∉ usedF ∧ pp (pairKey m.id f.id) = false := by
  induction fs with
  | nil => simp [findFemale] at h
  | cons g gs ih =>
    simp only [findFemale] at h
    by_cases h1 : g.id ∈ usedF
    · simp only [if_pos h1] at h
      rcases ih h with ⟨h2, h3, h4⟩
      exact ⟨List.mem_cons_of_mem _ h2, h3, h4⟩
    · simp only [if_neg h1] at h
      by_cases h2 : pp (pairKey m.id g.id)
      · simp only [if_pos h2] at h
        rcases ih h with ⟨h3, h4, h5⟩
        exact ⟨List.mem_cons_of_mem _ h3, h4, h5⟩
      · simp only [if_neg h2] at h
        cases h
        exact ⟨List.mem_cons_self _ _, h1, Bool.eq_false_iff.mpr h2⟩

theorem findUnused_some {usedF : List Nat} {fs : List Player} {f : Player}
    (h : findUnused usedF fs = some f) : f ∈ fs ∧ f.id ∉ usedF := by
  induction fs with
  | nil => simp [findUnused] at h
  | cons g gs ih =>
    simp only [findUnused] at h
    by_cases h1 : g.id ∈ usedF
    · simp only [if_pos h1] at h
      rcases ih h with ⟨h2, h3⟩
      exact ⟨List.mem_cons_of_mem _ h2, h3⟩
    · simp only [if_neg h1] at h
      cases h
      exact ⟨List.mem_cons_self _ _, h1⟩

theorem findNovelIdx_lt {pp : Nat × Nat → Bool} {p1 : Player} {l : List Player}
    {i : Nat} (h : findNovelIdx pp p1 l = some i) : i < l.length := by
  induction l generalizing i with
  | nil => simp [findNovelIdx] at h
  | cons p2 rest ih =>
    simp only [findNovelIdx] at h
    by_cases h1 : pp (pairKey p1.id p2.id)
    · simp only [if_pos h1, Option.map_eq_some'] at h
      rcases h with ⟨j, hj, rfl⟩
      simpa using Nat.succ_lt_succ (ih hj)
    · simp only [if_neg h1] at h
      cases h
      simp

theorem pass3Idx_lt (pp : Nat × Nat → Bool) (p1 : Player) {rest : List Player}
    (h : rest ≠ []) : pass3Idx pp p1 rest < rest.length := by
  unfold pass3Idx
  cases hfi : findNovelIdx pp p1 rest with
  | none =>
    simp only [Option.getD_none]
    exact List.length_pos.mpr h
  | some i => simpa using findNovelIdx_lt hfi

/-- Removing the element at an in-bounds index and putting it back in front
is a permutation of the original list. -/
theorem getD_cons_eraseIdx_perm {l : List Player} {i : Nat} (h : i < l.length)
    (d : Player) : ((l.getD i d) :: l.eraseIdx i).Perm l := by
  induction l generalizing i with
  | nil => simp at h
  | cons x xs ih =>
    cases i with
    | zero => simp [List.eraseIdx]
    | succ j =>
      have h' : j < xs.length := by simpa using h
      have hx := ih h'
      have h1 : ((x :: xs).getD (j + 1) d :: (x :: xs).eraseIdx (j + 1)) =
          (xs.getD j d :: x :: xs.eraseIdx j) := by simp [List.eraseIdx]
      rw [h1]
      exact (List.Perm.swap _ _ _).trans (hx.cons x)

/-! ### Pass 3: every emitted id comes from the leftover pool, no id twice -/

theorem dropLast_ne_nil_of_two_le {l : List Player} (h : 2 ≤ l.length) :
    l.dropLast ≠ [] := by
  intro hc
  have h2 := List.length_dropLast l
  rw [hc] at h2
  simp at h2
  omega

theorem ids_perm_getLast {l : List Player} (h : 2 ≤ l.length) :
    (ids l).Perm ((l.getLastD default).id :: ids l.dropLast) := by
  have hlne : l ≠ [] := by intro hc; rw [hc] at h; simp at h
  have hsplit : l.dropLast ++ [l.getLast hlne] = l := List.dropLast_append_getLast hlne
  have hp1 : l.getLastD default = l.getLast hlne := by
    simp [List.getLastD_eq_getLast?, List.getLast?_eq_getLast l hlne]
  rw [hp1]
  conv_lhs => rw [← hsplit]
  rw [ids_append]
  exact List.perm_append_singleton _ _

theorem pass3_subperm_aux (pp : Nat × Nat → Bool) :
    ∀ (n : Nat) (l : List Player), l.length ≤ n →
    (pairIds (pass3 pp l)).Subperm (ids l) := by
  intro n
  induction n with
  | zero =>
    intro l hl
    have hl0 : ¬ 2 ≤ l.length := by omega
    rw [pass3, dif_neg hl0]
    exact List.nil_subperm
  | succ n ih =>
    intro l hl
    rw [pass3]
    by_cases h : 2 ≤ l.length
    · rw [dif_pos h]
      have hrne : l.dropLast ≠ [] := dropLast_ne_nil_of_two_le h
      have hi : pass3Idx pp (l.getLastD default) l.dropLast < l.dropLast.length :=
        pass3Idx_lt pp _ hrne
      have hlen : (l.dropLast.eraseIdx
          (pass3Idx pp (l.getLastD default) l.dropLast)).length ≤ n := by
        have h1 := List.length_eraseIdx l.dropLast
          (pass3Idx pp (l.getLastD default) l.dropLast)
        have h2 := List.length_dropLast l
        rw [if_pos hi] at h1
        omega
      have hrec := ih _ hlen
      simp only [pairIds]
      have hperm2 : (((l.dropLast.getD
          (pass3Idx pp (l.getLastD default) l.dropLast) default)) ::
          l.dropLast.eraseIdx (pass3Idx pp (l.getLastD default) l.dropLast)).Perm
          l.dropLast := getD_cons_eraseIdx_perm hi default
      have hperm2' : (((l.dropLast.getD
          (pass3Idx pp (l.getLastD default) l.dropLast) default)).id ::
          ids (l.dropLast.eraseIdx
            (pass3Idx pp (l.getLastD default) l.dropLast))).Perm
          (ids l.dropLast) := by
        simpa [ids] using hperm2.map (fun p => p.id)
      have stail := ((List.subperm_cons _).mpr hrec).trans hperm2'.subperm
      have sfull := (List.subperm_cons (l.getLastD default).id).mpr stail
      exact sfull.trans (ids_perm_getLast h).symm.subperm
    · rw [dif_neg h]
      exact List.nil_subperm

/-- The ids emitted by pass 3 are a sub-multiset of the leftover ids. -/
theorem pass3_subperm (pp : Nat × Nat → Bool) (l : List Player) :
    (pairIds (pass3 pp l)).Subperm (ids l) :=
  pass3_subperm_aux pp l.length l (Nat.le_refl _)

theorem pass3_length_aux (pp : Nat × Nat → Bool) :
    ∀ (n : Nat) (l : List Player), l.length ≤ n →
    (pass3 pp l).length = l.length / 2 := by
  intro n
  induction n with
  | zero =>
    intro l hl
    have hl0 : ¬ 2 ≤ l.length := by omega
    rw [pass3, dif_neg hl0]
    simp
    omega
  | succ n ih =>
    intro l hl
    rw [pass3]
    by_cases h : 2 ≤ l.length
    · rw [dif_pos h]
      have hrne : l.dropLast ≠ [] := dropLast_ne_nil_of_two_le h
      have hi : pass3Idx pp (l.getLastD default) l.dropLast < l.dropLast.length :=
        pass3Idx_lt pp _ hrne
      have h1 := List.length_eraseIdx l.dropLast
        (pass3Idx pp (l.getLastD default) l.dropLast)
      have h2 := List.length_dropLast l
      rw [if_pos hi] at h1
      have hlen : (l.dropLast.eraseIdx
          (pass3Idx pp (l.getLastD default) l.dropLast)).length ≤ n := by omega
      have hrec := ih _ hlen
      simp only [List.length_cons, hrec]
      omega
    · rw [dif_neg h]
      simp
      omega

/-- Pass 3 pairs up all of the leftover pool except at most one player. -/
theorem pass3_length (pp : Nat × Nat → Bool) (l : List Player) :
    (pass3 pp l).length = l.length / 2 :=
  pass3_length_aux pp l.length l (Nat.le_refl _)

/-! ### The invariant of the pair-forming passes -/

theorem PairInv.add {Mids Fids : List Nat} {st : PairState}
    (inv : PairInv Mids Fids st) (hdisj : ∀ x ∈ Mids, x ∉ Fids)
    {m f : Player} (hm : m.id ∈ Mids) (hmu : m.id ∉ st.usedM)
    (hf : f.id ∈ Fids) (hfu : f.id ∉ st.usedF) :
    PairInv Mids Fids
      ⟨st.pairs ++ [(m, f)], st.usedM ++ [m.id], st.usedF ++ [f.id]⟩ := by
  obtain ⟨h1, h2, h3, h4, h5⟩ := inv
  refine ⟨?_, ?_, ?_, ?_, ?_⟩
  · simp [List.map_append, h1]
  · simp [List.map_append, h2]
  · show (pairIds (st.pairs ++ [(m, f)])).Nodup
    rw [pairIds_append]
    have hmf : m.id ≠ f.id := fun hc => hdisj m.id hm (hc ▸ hf)
    rw [List.nodup_append]
    refine ⟨h3, by simp [pairIds, hmf], ?_⟩
    intro a ha
    rcases mem_pairIds.mp ha with ⟨p, hp, hcase⟩
    have hafst : a = p.1.id ∨ a = p.2.id := hcase
    simp only [pairIds, List.mem_cons, List.not_mem_nil, or_false]
    rintro (rfl | rfl)
    · rcases hafst with he | he
      · exact hmu (h1 ▸ List.mem_map.mpr ⟨p, hp, he.symm⟩)
      · exact hdisj m.id hm (he ▸ h5 p hp)
    · rcases hafst with he | he
      · exact hdisj p.1.id (h4 p hp) (he ▸ hf)
      · exact hfu (h2 ▸ List.mem_map.mpr ⟨p, hp, he.symm⟩)
  · intro p hp
    rcases List.mem_append.mp hp with hp | hp
    · exact h4 p hp
    · simp at hp
      simp [hp, hm]
  · intro p hp
    rcases List.mem_append.mp hp with hp | hp
    · exact h5 p hp
    · simp at hp
      simp [hp, hf]

theorem pass1_inv (pp : Nat × Nat → Bool) (fs : List Player)
    (Mids Fids : List Nat) (hdisj : ∀ x ∈ Mids, x ∉ Fids)
    (hfs : ∀ f ∈ fs, f.id ∈ Fids) :
    ∀ (msRest : List Player) (st : PairState), PairInv Mids Fids st →
    (ids msRest).Nodup → (∀ m ∈ msRest, m.id ∈ Mids) →
    (∀ m ∈ msRest, m.id ∉ st.usedM) →
    PairInv Mids Fids (pass1 pp fs msRest st) := by
  intro msRest
  induction msRest with
  | nil => intro st inv _ _ _; simpa [pass1] using inv
  | cons m rest ih =>
    intro st inv hnd hmem hnu
    have hnd2 : (∀ x ∈ rest, ¬ x.id = m.id) ∧
        (List.map (fun p => p.id) rest).Nodup := by
      simpa [ids] using hnd
    have hndr : (ids rest).Nodup := hnd2.2
    have hmidr : m.id ∉ ids rest := by
      intro hc
      rcases List.mem_map.mp hc with ⟨x, hx, hxe⟩
      exact hnd2.1 x hx hxe
    simp only [pass1]
    cases hff : findFemale pp m st.usedF fs with
    | none =>
      exact ih st inv hndr (fun x hx => hmem x (List.mem_cons_of_mem _ hx))
        (fun x hx => hnu x (List.mem_cons_of_mem _ hx))
    | some f =>
      obtain ⟨hfm, hfu, _⟩ := findFemale_some hff
      apply ih
      · exact inv.add hdisj (hmem m (List.mem_cons_self _ _))
          (hnu m (List.mem_cons_self _ _)) (hfs f hfm) hfu
      · exact hndr
      · exact fun x hx => hmem x (List.mem_cons_of_mem _ hx)
      · intro x hx
        simp only [List.mem_append, List.mem_singleton]
        rintro (hc | hc)
        · exact hnu x (List.mem_cons_of_mem _ hx) hc
        · exact hmidr (hc ▸ List.mem_map.mpr ⟨x, hx, rfl⟩)

theorem pass2_inv (remF : List Player) (Mids Fids : List Nat)
    (hdisj : ∀ x ∈ Mids, x ∉ Fids) (hfs : ∀ f ∈ remF, f.id ∈ Fids) :
    ∀ (msRest : List Player) (st : PairState), PairInv Mids Fids st →
    (ids msRest).Nodup → (∀ m ∈ msRest, m.id ∈ Mids) →
    (∀ m ∈ msRest, m.id ∉ st.usedM) →
    PairInv Mids Fids (pass2 remF msRest st) := by
  intro msRest
  induction msRest with
  | nil => intro st inv _ _ _; simpa [pass2] using inv
  | cons m rest ih =>
    intro st inv hnd hmem hnu
    have hnd2 : (∀ x ∈ rest, ¬ x.id = m.id) ∧
        (List.map (fun p => p.id) rest).Nodup := by
      simpa [ids] using hnd
    have hndr : (ids rest).Nodup := hnd2.2
    have hmidr : m.id ∉ ids rest := by
      intro hc
      rcases List.mem_map.mp hc with ⟨x, hx, hxe⟩
      exact hnd2.1 x hx hxe
    simp only [pass2]
    cases hff : findUnused st.usedF remF with
    | none =>
      exact ih st inv hndr (fun x hx => hmem x (List.mem_cons_of_mem _ hx))
        (fun x hx => hnu x (List.mem_cons_of_mem _ hx))
    | some f =>
      obtain ⟨hfm, hfu⟩ := findUnused_some hff
      apply ih
      · exact inv.add hdisj (hmem m (List.mem_cons_self _ _))
          (hnu m (List.mem_cons_self _ _)) (hfs f hfm) hfu
      · exact hndr
      · exact fun x hx => hmem x (List.mem_cons_of_mem _ hx)
      · intro x hx
        simp only [List.mem_append, List.mem_singleton]
        rintro (hc | hc)
        · exact hnu x (List.mem_cons_of_mem _ hx) hc
        · exact hmidr (hc ▸ List.mem_map.mpr ⟨x, hx, rfl⟩)

theorem nodup_of_subperm {l₁ l₂ : List Nat} (h : l₁.Subperm l₂)
    (hn : l₂.Nodup) : l₁.Nodup := by
  obtain ⟨l, hp, hs⟩ := h
  exact hp.nodup_iff.mp (List.Nodup.sublist hs hn)

theorem ids_filter_nodup {l : List Player} (p : Player → Bool)
    (h : (ids l).Nodup) : (ids (l.filter p)).Nodup :=
  List.Nodup.sublist (List.Sublist.map _ (List.filter_sublist l)) h

theorem mem_ids_of_mem {l : List Player} {x : Player} (h : x ∈ l) :
    x.id ∈ ids l := List.mem_map.mpr ⟨x, h, rfl⟩

theorem mem_of_mem_ids_filter {l : List Player} {p : Player → Bool} {a : Nat}
    (h : a ∈ ids (l.filter p)) : ∃ y ∈ l, p y = true ∧ y.id = a := by
  rcases List.mem_map.mp h with ⟨y, hy, hye⟩
  rw [List.mem_filter] at hy
  exact ⟨y, hy.1, hy.2, hye⟩

/-- After the first two passes, appending the pairs of pass 3 (which draw
only from the unused leftovers) keeps every id unique. -/
theorem pairs_append_pass3_nodup (pp : Nat × Nat → Bool)
    {σL : List Player → List Player} (hLp : ∀ l, (σL l).Perm l)
    {msS fsS : List Player}
    (hndms : (ids msS).Nodup) (hndfs : (ids fsS).Nodup)
    (hdisj : ∀ x ∈ ids msS, x ∉ ids fsS)
    (st2 : PairState) (inv : PairInv (ids msS) (ids fsS) st2) :
    (pairIds (st2.pairs ++ pass3 pp (σL
      (msS.filter (fun m => decide (m.id ∉ st2.usedM)) ++
       fsS.filter (fun f => decide (f.id ∉ st2.usedF)))))).Nodup := by
  obtain ⟨h1, h2, h3, h4, h5⟩ := inv
  have hndL : (ids (msS.filter (fun m => decide (m.id ∉ st2.usedM)) ++
      fsS.filter (fun f => decide (f.id ∉ st2.usedF)))).Nodup := by
    rw [ids_append, List.nodup_append]
    refine ⟨ids_filter_nodup _ hndms, ids_filter_nodup _ hndfs, ?_⟩
    intro a ha hb
    rcases mem_of_mem_ids_filter ha with ⟨y, hy, _, hye⟩
    rcases mem_of_mem_ids_filter hb with ⟨z, hz, _, hze⟩
    exact hdisj a (hye ▸ mem_ids_of_mem hy) (hze ▸ mem_ids_of_mem hz)
  have hsp : (pairIds (pass3 pp (σL
      (msS.filter (fun m => decide (m.id ∉ st2.usedM)) ++
       fsS.filter (fun f => decide (f.id ∉ st2.usedF)))))).Subperm
      (ids (msS.filter (fun m => decide (m.id ∉ st2.usedM)) ++
       fsS.filter (fun f => decide (f.id ∉ st2.usedF)))) := by
    refine (pass3_subperm pp _).trans ?_
    exact ((hLp _).map (fun p => p.id)).subperm
  rw [pairIds_append, List.nodup_append]
  refine ⟨h3, nodup_of_subperm hsp hndL, ?_⟩
  intro a ha hb
  have haL : a ∈ ids (msS.filter (fun m => decide (m.id ∉ st2.usedM)) ++
      fsS.filter (fun f => decide (f.id ∉ st2.usedF))) := hsp.subset hb
  rcases mem_pairIds.mp ha with ⟨p, hp, hc⟩
  rw [ids_append, List.mem_append] at haL
  rcases haL with haM | haF
  · rcases mem_of_mem_ids_filter haM with ⟨y, hy, hyp, hye⟩
    have hyn : y.id ∉ st2.usedM := by simpa using hyp
    rcases hc with rfl | rfl
    · exact hyn (hye ▸ h1 ▸ List.mem_map.mpr ⟨p, hp, rfl⟩)
    · exact hdisj p.2.id (hye ▸ mem_ids_of_mem hy) (h5 p hp)
  · rcases mem_of_mem_ids_filter haF with ⟨y, hy, hyp, hye⟩
    have hyn : y.id ∉ st2.usedF := by simpa using hyp
    rcases hc with rfl | rfl
    · exact hdisj p.1.id (h4 p hp) (hye ▸ mem_ids_of_mem hy)
    · exact hyn (hye ▸ h2 ▸ List.mem_map.mpr ⟨p, hp, rfl⟩)

/-- Every id appears at most once among the pairs formed by `_form_pairs`,
for any pairwise-distinct input ids and any shuffles. -/
theorem formPairs_pairIds_nodup {males females : List Player}
    (pp : Nat × Nat → Bool) {σM σF σL : List Player → List Player}
    (hMp : (σM males).Perm males) (hFp : (σF females).Perm females)
    (hLp : ∀ l, (σL l).Perm l)
    (hnd : (ids (males ++ females)).Nodup) :
    (pairIds (formPairs males females pp σM σF σL)).Nodup := by
  rw [ids_append, List.nodup_append] at hnd
  obtain ⟨hndM, hndF, hdisj0⟩ := hnd
  have hms : (ids (σM males)).Perm (ids males) := hMp.map _
  have hfs : (ids (σF females)).Perm (ids females) := hFp.map _
  have hndms : (ids (σM males)).Nodup := hms.nodup_iff.mpr hndM
  have hndfs : (ids (σF females)).Nodup := hfs.nodup_iff.mpr hndF
  have hdisj : ∀ x ∈ ids (σM males), x ∉ ids (σF females) := by
    intro x hx hx2
    exact hdisj0 (hms.mem_iff.mp hx) (hfs.mem_iff.mp hx2)
  have inv0 : PairInv (ids (σM males)) (ids (σF females)) ⟨[], [], []⟩ :=
    ⟨rfl, rfl, by simp [pairIds], by simp, by simp⟩
  have inv1 : PairInv (ids (σM males)) (ids (σF females))
      (pass1 pp (σF females) (σM males) ⟨[], [], []⟩) :=
    pass1_inv pp (σF females) _ _ hdisj (fun f hf => mem_ids_of_mem hf)
      (σM males) ⟨[], [], []⟩ inv0 hndms (fun m hm => mem_ids_of_mem hm)
      (by simp)
  have inv2 : PairInv (ids (σM males)) (ids (σF females))
      (pass2
        ((σF females).filter (fun f => decide (f.id ∉
          (pass1 pp (σF females) (σM males) ⟨[], [], []⟩).usedF)))
        ((σM males).filter (fun m => decide (m.id ∉
          (pass1 pp (σF females) (σM males) ⟨[], [], []⟩).usedM)))
        (pass1 pp (σF females) (σM males) ⟨[], [], []⟩)) := by
    apply pass2_inv _ _ _ hdisj
    · intro f hf
      exact mem_ids_of_mem (List.mem_filter.mp hf).1
    · exact inv1
    · exact ids_filter_nodup _ hndms
    · intro m hm
      exact mem_ids_of_mem (List.mem_filter.mp hm).1
    · intro m hm
      have := (List.mem_filter.mp hm).2
      simpa using this
  exact pairs_append_pass3_nodup pp hLp hndms hndfs hdisj _ inv2

/-! ### Candidate construction -/

theorem buildMatches_length (pairs : List (Player × Player)) (k : Nat) :
    (buildMatches pairs k).length = k := by
  simp [buildMatches]

theorem buildMatches_teams {pairs : List (Player × Player)} {k : Nat} :
    ∀ m ∈ buildMatches pairs k, m.team1.length = 2 ∧ m.team2.length = 2 := by
  intro m hm
  rcases List.mem_map.mp hm with ⟨i, _, rfl⟩
  exact ⟨rfl, rfl⟩

theorem buildMatches_courts (pairs : List (Player × Player)) (k : Nat) :
    (buildMatches pairs k).map (fun m => m.court) =
    (List.range k).map (fun i => i + 1) := by
  simp [buildMatches]

theorem roundIds_buildMatches {pairs : List (Player × Player)} :
    ∀ {k : Nat}, k * 2 ≤ pairs.length →
    roundIds (buildMatches pairs k) = pairIds (pairs.take (k * 2)) := by
  intro k
  induction k with
  | zero => intro _; simp [buildMatches, roundIds, pairIds]
  | succ k ih =>
    intro hk
    have hk' : k * 2 ≤ pairs.length := by omega
    have h1 : k * 2 < pairs.length := by omega
    have h2 : k * 2 + 1 < pairs.length := by omega
    unfold buildMatches
    rw [List.range_succ, List.map_append, roundIds_append]
    unfold buildMatches at ih
    rw [ih hk']
    have hstep : pairs.take ((k + 1) * 2) =
        pairs.take (k * 2) ++ [pairs[k * 2]] ++ [pairs[k * 2 + 1]] := by
      have e1 : (k + 1) * 2 = (k * 2 + 1) + 1 := by omega
      rw [e1, List.take_succ, List.take_succ,
        List.getElem?_eq_getElem h1, List.getElem?_eq_getElem h2]
      simp
    rw [hstep, pairIds_append, pairIds_append]
    have hg1 : pairs.getD (k * 2) default = pairs[k * 2] :=
      List.getD_eq_getElem pairs default h1
    have hg2 : pairs.getD (k * 2 + 1) default = pairs[k * 2 + 1] :=
      List.getD_eq_getElem pairs default h2
    simp [roundIds, matchIds, pairIds, hg1, hg2,
      List.getElem?_eq_getElem h1, List.getElem?_eq_getElem h2]

theorem generateCandidate_eq_none_iff {players : List Player} {k : Nat}
    {pp : Nat × Nat → Bool} {rng : CandRng} :
    generateCandidate players k pp rng = none ↔
    (candPairs players pp rng).length < k * 2 := by
  unfold generateCandidate
  split
  next h => simp [h]
  next h => simp [h]

theorem generateCandidate_some {players : List Player} {k : Nat}
    {pp : Nat × Nat → Bool} {rng : CandRng} {r : List Match}
    (h : generateCandidate players k pp rng = some r) :
    r = buildMatches (rng.shufflePairs (candPairs players pp rng)) k ∧
    k * 2 ≤ (candPairs players pp rng).length := by
  unfold generateCandidate at h
  split at h
  · cases h
  · cases h
    constructor
    · rfl
    · omega

theorem generateCandidate_some_length {players : List Player} {k : Nat}
    {pp : Nat × Nat → Bool} {rng : CandRng} {r : List Match}
    (h : generateCandidate players k pp rng = some r) : r.length = k := by
  rw [(generateCandidate_some h).1]
  exact buildMatches_length _ _

/-- The two gender filters of `_generate_candidate` produce lists whose
combined ids are still pairwise distinct. -/
theorem filter_genders_nodup {l : List Player} (h : (ids l).Nodup) :
    (ids (l.filter (fun p => decide (p.gender = "M")) ++
          l.filter (fun p => decide (p.gender = "F")))).Nodup := by
  rw [ids_append, List.nodup_append]
  refine ⟨ids_filter_nodup _ h, ids_filter_nodup _ h, ?_⟩
  intro a ha hb
  rcases mem_of_mem_ids_filter ha with ⟨y, hy, hyg, hye⟩
  rcases mem_of_mem_ids_filter hb with ⟨z, hz, hzg, hze⟩
  have hyz : y = z :=
    List.inj_on_of_nodup_map h hy hz (by rw [hye, hze])
  rw [hyz] at hyg
  simp at hyg hzg
  rw [hyg] at hzg
  exact absurd hzg (by decide)

/-- No id occurs twice among the pairs built during one candidate attempt. -/
theorem candPairs_nodup {players : List Player} (pp : Nat × Nat → Bool)
    {rng : CandRng} (hv : rng.Valid) (hnd : (ids players).Nodup) :
    (pairIds (candPairs players pp rng)).Nodup := by
  obtain ⟨hP, hM, hF, hL, _⟩ := hv
  have hshuf : (ids (rng.shufflePlayers players)).Nodup := by
    have h2 : (ids (rng.shufflePlayers players)).Perm (ids players) := by
      unfold ids
      exact (hP players).map _
    exact h2.nodup_iff.mpr hnd
  exact formPairs_pairIds_nodup pp (hM _) (hF _) hL (filter_genders_nodup hshuf)

/-- A valid candidate has no repeated player id anywhere. -/
theorem generateCandidate_roundIds_nodup {players : List Player} {k : Nat}
    {pp : Nat × Nat → Bool} {rng : CandRng} {r : List Match}
    (hv : rng.Valid) (hnd : (ids players).Nodup)
    (h : generateCandidate players k pp rng = some r) : (roundIds r).Nodup := by
  obtain ⟨hr, hlen⟩ := generateCandidate_some h
  have hperm : (rng.shufflePairs (candPairs players pp rng)).Perm
      (candPairs players pp rng) := hv.2.2.2.2 _
  have hlen2 : k * 2 ≤ (rng.shufflePairs (candPairs players pp rng)).length := by
    rw [hperm.length_eq]; exact hlen
  rw [hr, roundIds_buildMatches hlen2]
  have hnd2 : (pairIds (rng.shufflePairs (candPairs players pp rng))).Nodup :=
    (pairIds_perm hperm).nodup_iff.mpr (candPairs_nodup pp hv hnd)
  have hsplit := List.take_append_drop (k * 2)
    (rng.shufflePairs (candPairs players pp rng))
  rw [← hsplit, pairIds_append, List.nodup_append] at hnd2
  exact hnd2.1

/-! ### The attempt loop -/

theorem attemptLoop_succ (playing : List Player) (k : Nat)
    (pp : Nat × Nat → Bool) (po : Nat × Nat → Nat) (wins : Nat → Nat)
    (rng : Nat → CandRng) (n : Nat) :
    attemptLoop playing k pp po wins rng (n + 1) =
    attemptStep playing k pp po wins rng
      (attemptLoop playing k pp po wins rng n) n := by
  unfold attemptLoop
  rw [List.range_succ, List.foldl_append]
  rfl

theorem attemptLoop_none_iff (playing : List Player) (k : Nat)
    (pp : Nat × Nat → Bool) (po : Nat × Nat → Nat) (wins : Nat → Nat)
    (rng : Nat → CandRng) :
    ∀ n, attemptLoop playing k pp po wins rng n = none ↔
      ∀ t < n, generateCandidate playing k pp (rng t) = none := by
  intro n
  induction n with
  | zero => simp [attemptLoop]
  | succ n ih =>
    rw [attemptLoop_succ]
    constructor
    · intro h
      cases hc : generateCandidate playing k pp (rng n) with
      | some c =>
        exfalso
        unfold attemptStep at h
        rw [hc] at h
        cases hb : attemptLoop playing k pp po wins rng n with
        | none => rw [hb] at h; simp at h
        | some b =>
          rw [hb] at h
          rcases b with ⟨bs, bm⟩
          by_cases hcmp : bs < scoreCandidate c pp po wins
          · simp [hcmp] at h
          · simp [hcmp] at h
      | none =>
        unfold attemptStep at h
        rw [hc] at h
        intro t ht
        rcases Nat.lt_succ_iff_lt_or_eq.mp ht with ht' | rfl
        · exact (ih.mp h) t ht'
        · exact hc
    · intro h
      have hb : attemptLoop playing k pp po wins rng n = none :=
        ih.mpr (fun t ht => h t (Nat.lt_succ_of_lt ht))
      unfold attemptStep
      rw [h n (Nat.lt_succ_self n), hb]

theorem attemptStep_of_none {playing : List Player} {k : Nat}
    {pp : Nat × Nat → Bool} {po : Nat × Nat → Nat} {wins : Nat → Nat}
    {rng : Nat → CandRng} {t : Nat} (best : Option (Int × List Match))
    (hc : generateCandidate playing k pp (rng t) = none) :
    attemptStep playing k pp po wins rng best t = best := by
  unfold attemptStep
  rw [hc]

theorem attemptStep_some_of_none_best {playing : List Player} {k : Nat}
    {pp : Nat × Nat → Bool} {po : Nat × Nat → Nat} {wins : Nat → Nat}
    {rng : Nat → CandRng} {t : Nat} {c : List Match}
    (hc : generateCandidate playing k pp (rng t) = some c) :
    attemptStep playing k pp po wins rng none t =
    some (scoreCandidate c pp po wins, c) := by
  unfold attemptStep
  rw [hc]

theorem attemptStep_some_of_some_best {playing : List Player} {k : Nat}
    {pp : Nat × Nat → Bool} {po : Nat × Nat → Nat} {wins : Nat → Nat}
    {rng : Nat → CandRng} {t : Nat} {c : List Match} (bs : Int) (bm : List Match)
    (hc : generateCandidate playing k pp (rng t) = some c) :
    attemptStep playing k pp po wins rng (some (bs, bm)) t =
    if bs < scoreCandidate c pp po wins
    then some (scoreCandidate c pp po wins, c) else some (bs, bm) := by
  unfold attemptStep
  rw [hc]

/-- What the attempt loop guarantees when it ends with a best candidate:
the best is one of the valid candidates, carries its own score, no valid
candidate scores strictly higher, and every valid candidate of an earlier
attempt scores strictly lower (strict `>` replacement). -/
theorem attemptLoop_some_spec (playing : List Player) (k : Nat)
    (pp : Nat × Nat → Bool) (po : Nat × Nat → Nat) (wins : Nat → Nat)
    (rng : Nat → CandRng) :
    ∀ (n : Nat) (s : Int) (m : List Match),
      attemptLoop playing k pp po wins rng n = some (s, m) →
      scoreCandidate m pp po wins = s ∧
      (∃ t₀, t₀ < n ∧ generateCandidate playing k pp (rng t₀) = some m ∧
        ∀ t < t₀, ∀ c, generateCandidate playing k pp (rng t) = some c →
          scoreCandidate c pp po wins < s) ∧
      (∀ t < n, ∀ c, generateCandidate playing k pp (rng t) = some c →
        scoreCandidate c pp po wins ≤ s) := by
  intro n
  induction n with
  | zero => intro s m h; simp [attemptLoop] at h
  | succ n ih =>
    intro s m h
    rw [attemptLoop_succ] at h
    cases hc : generateCandidate playing k pp (rng n) with
    | none =>
      rw [attemptStep_of_none _ hc] at h
      obtain ⟨hs, ⟨t₀, ht₀, hgen, hlt⟩, hle⟩ := ih s m h
      refine ⟨hs, ⟨t₀, Nat.lt_succ_of_lt ht₀, hgen, hlt⟩, ?_⟩
      intro t ht c hgc
      rcases Nat.lt_succ_iff_lt_or_eq.mp ht with ht' | rfl
      · exact hle t ht' c hgc
      · rw [hc] at hgc; cases hgc
    | some c =>
      cases hb : attemptLoop playing k pp po wins rng n with
      | none =>
        rw [hb, attemptStep_some_of_none_best hc] at h
        have hall := (attemptLoop_none_iff playing k pp po wins rng n).mp hb
        cases h
        refine ⟨rfl, ⟨n, Nat.lt_succ_self n, hc, ?_⟩, ?_⟩
        · intro t ht c' hgc
          rw [hall t ht] at hgc; cases hgc
        · intro t ht c' hgc
          rcases Nat.lt_succ_iff_lt_or_eq.mp ht with ht' | rfl
          · rw [hall t ht'] at hgc; cases hgc
          · rw [hc] at hgc; cases hgc; exact Int.le_refl _
      | some b =>
        rcases b with ⟨bs, bm⟩
        rw [hb, attemptStep_some_of_some_best bs bm hc] at h
        obtain ⟨hs, ⟨t₀, ht₀, hgen, hlt⟩, hle⟩ := ih bs bm hb
        by_cases hcmp : bs < scoreCandidate c pp po wins
        · rw [if_pos hcmp] at h
          cases h
          refine ⟨rfl, ⟨n, Nat.lt_succ_self n, hc, ?_⟩, ?_⟩
          · intro t ht c' hgc
            exact Int.lt_of_le_of_lt (hle t ht c' hgc) hcmp
          · intro t ht c' hgc
            rcases Nat.lt_succ_iff_lt_or_eq.mp ht with ht' | rfl
            · exact Int.le_of_lt (Int.lt_of_le_of_lt (hle t ht' c' hgc) hcmp)
            · rw [hc] at hgc; cases hgc; exact Int.le_refl _
        · rw [if_neg hcmp] at h
          cases h
          refine ⟨hs, ⟨t₀, Nat.lt_succ_of_lt ht₀, hgen, hlt⟩, ?_⟩
          intro t ht c' hgc
          rcases Nat.lt_succ_iff_lt_or_eq.mp ht with ht' | rfl
          · exact hle t ht' c' hgc
          · rw [hc] at hgc
            cases hgc
            exact Int.not_lt.mp hcmp

/-! ### The fallback assigner -/

theorem fallbackGo_closed (s : List Player) :
    ∀ (k i : Nat), (i + k) * 4 ≤ s.length →
    fallbackGo s k i = (List.range k).map (fun j =>
      { court := i + j + 1
        team1 := ((s.drop ((i + j) * 4)).take 4).take 2
        team2 := (((s.drop ((i + j) * 4)).take 4).drop 2).take 2 }) := by
  intro k
  induction k with
  | zero => intro i _; simp [fallbackGo]
  | succ k ih =>
    intro i hi
    have hlen4 : ((s.drop (i * 4)).take 4).length = 4 := by
      rw [List.length_take, List.length_drop]
      simp only [Nat.min_def]
      split <;> omega
    unfold fallbackGo
    rw [hlen4, if_neg (by omega : ¬ (4 : Nat) < 4), ih (i + 1) (by omega)]
    rw [List.range_succ_eq_map, List.map_cons, List.map_map]
    refine congrArg₂ List.cons ?_ ?_
    · simp
    · apply List.map_congr_left
      intro j _
      have he : i + 1 + j = i + (j + 1) := by omega
      simp only [Function.comp_apply, Nat.succ_eq_add_one, he]

theorem generateFallback_closed {s : List Player} {k : Nat}
    (h : k * 4 ≤ s.length) :
    generateFallback s k = (List.range k).map (fun j =>
      { court := j + 1
        team1 := ((s.drop (j * 4)).take 4).take 2
        team2 := (((s.drop (j * 4)).take 4).drop 2).take 2 }) := by
  unfold generateFallback
  rw [fallbackGo_closed s k 0 (by omega)]
  simp

theorem generateFallback_length {s : List Player} {k : Nat}
    (h : k * 4 ≤ s.length) : (generateFallback s k).length = k := by
  rw [generateFallback_closed h]
  simp

theorem generateFallback_courts {s : List Player} {k : Nat}
    (h : k * 4 ≤ s.length) :
    (generateFallback s k).map (fun m => m.court) =
    (List.range k).map (fun i => i + 1) := by
  rw [generateFallback_closed h]
  simp

theorem generateFallback_teams {s : List Player} {k : Nat}
    (h : k * 4 ≤ s.length) :
    ∀ m ∈ generateFallback s k, m.team1.length = 2 ∧ m.team2.length = 2 := by
  rw [generateFallback_closed h]
  intro m hm
  rcases List.mem_map.mp hm with ⟨j, hj, rfl⟩
  rw [List.mem_range] at hj
  have hg : ((s.drop (j * 4)).take 4).length = 4 := by
    rw [List.length_take, List.length_drop]
    simp only [Nat.min_def]
    split <;> omega
  constructor
  · simp only [List.length_take, hg]
    decide
  · simp only [List.length_take, List.length_drop, hg]
    decide

theorem fallbackGo_roundIds (s : List Player) :
    ∀ (k i : Nat), (i + k) * 4 ≤ s.length →
    roundIds (fallbackGo s k i) = ids ((s.drop (i * 4)).take (k * 4)) := by
  intro k
  induction k with
  | zero => intro i _; simp [fallbackGo, roundIds, ids]
  | succ k ih =>
    intro i hi
    have hlen4 : ((s.drop (i * 4)).take 4).length = 4 := by
      rw [List.length_take, List.length_drop]
      simp only [Nat.min_def]
      split <;> omega
    unfold fallbackGo
    rw [hlen4, if_neg (by omega : ¬ (4 : Nat) < 4)]
    show matchIds _ ++ roundIds (fallbackGo s k (i + 1)) = _
    rw [ih (i + 1) (by omega)]
    have hm : matchIds
        { court := i + 1, team1 := ((s.drop (i * 4)).take 4).take 2
          team2 := (((s.drop (i * 4)).take 4).drop 2).take 2 } =
        ids ((s.drop (i * 4)).take 4) := by
      unfold matchIds ids
      have hd2 : (((s.drop (i * 4)).take 4).drop 2).take 2 =
          ((s.drop (i * 4)).take 4).drop 2 := by
        apply List.take_of_length_le
        rw [List.length_drop, hlen4]
      rw [hd2, List.take_append_drop]
    rw [hm]
    have hdd : s.drop ((i + 1) * 4) = ((s.drop (i * 4)).drop 4) := by
      rw [List.drop_drop]
      congr 1
      omega
    rw [hdd]
    show _ = ids ((s.drop (i * 4)).take ((k + 1) * 4))
    have he4 : (k + 1) * 4 = 4 + k * 4 := by omega
    rw [he4, List.take_add, ids_append]

theorem generateFallback_roundIds {s : List Player} {k : Nat}
    (h : k * 4 ≤ s.length) :
    roundIds (generateFallback s k) = ids (s.take (k * 4)) := by
  unfold generateFallback
  rw [fallbackGo_roundIds s k 0 (by omega)]
  simp

theorem generateFallback_roundIds_nodup {s : List Player} {k : Nat}
    (h : k * 4 ≤ s.length) (hnd : (ids s).Nodup) :
    (roundIds (generateFallback s k)).Nodup := by
  rw [generateFallback_roundIds h]
  exact List.Nodup.sublist (List.Sublist.map _ (List.take_sublist _ _)) hnd

/-! ### The player selector -/

theorem selectPlayers_of_le {players shuffled : List Player} {needed : Nat}
    (gp : Nat → Nat) (h : players.length ≤ needed) :
    selectPlayers players needed gp shuffled = players := by
  unfold selectPlayers
  rw [if_pos h]

theorem selectPlayers_length {players shuffled : List Player} {needed : Nat}
    (gp : Nat → Nat) (h : needed ≤ players.length)
    (hperm : shuffled.Perm players) :
    (selectPlayers players needed gp shuffled).length = needed := by
  unfold selectPlayers
  split
  next hc => omega
  next hc =>
    rw [List.length_take, (List.mergeSort_perm shuffled _).length_eq,
      hperm.length_eq]
    omega

theorem selectPlayers_sub {players shuffled : List Player} {needed : Nat}
    (gp : Nat → Nat) (hperm : shuffled.Perm players) :
    ∃ l', (selectPlayers players needed gp shuffled).Sublist l' ∧
      l'.Perm players := by
  unfold selectPlayers
  split
  · exact ⟨players, List.Sublist.refl _, List.Perm.refl _⟩
  · exact ⟨_, List.take_sublist _ _,
      (List.mergeSort_perm shuffled _).trans hperm⟩

theorem playingOf_sub (players : List Player) (numCourts : Nat) (gp : Nat → Nat)
    (rng : RoundRng) (skip : Bool)
    (hperm : (rng.select players).Perm players) :
    ∃ l', (playingOf players numCourts gp rng skip).Sublist l' ∧
      l'.Perm players := by
  unfold playingOf
  split
  · exact ⟨players, List.Sublist.refl _, List.Perm.refl _⟩
  · exact selectPlayers_sub gp hperm

theorem playingOf_ids_nodup {players : List Player} {numCourts : Nat}
    {gp : Nat → Nat} {rng : RoundRng} {skip : Bool}
    (hperm : (rng.select players).Perm players)
    (hnd : (ids players).Nodup) :
    (ids (playingOf players numCourts gp rng skip)).Nodup := by
  obtain ⟨l', hsub, hp⟩ := playingOf_sub players numCourts gp rng skip hperm
  have h1 : (ids l').Nodup := by
    have h2 : (ids l').Perm (ids players) := by
      unfold ids
      exact hp.map _
    exact h2.nodup_iff.mpr hnd
  exact List.Nodup.sublist (List.Sublist.map _ hsub) h1

theorem maxMatches_mul_le {players : List Player} {numCourts : Nat} :
    maxMatchesOf players numCourts * 4 ≤ players.length := by
  unfold maxMatchesOf
  have h1 := Nat.div_mul_le_self players.length 4
  have h2 : min numCourts (players.length / 4) ≤ players.length / 4 :=
    Nat.min_le_right _ _
  omega

theorem playingOf_length (players : List Player) (numCourts : Nat)
    (gp : Nat → Nat) (rng : RoundRng) (skip : Bool)
    (hperm : (rng.select players).Perm players) :
    maxMatchesOf players numCourts * 4 ≤
    (playingOf players numCourts gp rng skip).length := by
  unfold playingOf
  split
  · exact maxMatches_mul_le
  · rw [selectPlayers_length gp maxMatches_mul_le hperm]

/-! ### Case analysis of `generate_round` -/

theorem generateRound_of_small {players : List Player} {numCourts : Nat}
    (pp : Nat × Nat → Bool) (po : Nat × Nat → Nat) (gp wins : Nat → Nat)
    (rng : RoundRng) (numAttempts : Nat) (skipSelection : Bool)
    (h : players.length < 4) :
    generateRound players numCourts pp po gp wins rng numAttempts
      skipSelection = [] := by
  unfold generateRound
  rw [if_pos h]

theorem generateRound_of_zero {players : List Player} {numCourts : Nat}
    (pp : Nat × Nat → Bool) (po : Nat × Nat → Nat) (gp wins : Nat → Nat)
    (rng : RoundRng) (numAttempts : Nat) (skipSelection : Bool)
    (h4 : ¬ players.length < 4) (h0 : maxMatchesOf players numCourts = 0) :
    generateRound players numCourts pp po gp wins rng numAttempts
      skipSelection = [] := by
  unfold generateRound
  rw [if_neg h4, if_pos h0]

theorem generateRound_split {players : List Player} {numCourts : Nat}
    (pp : Nat × Nat → Bool) (po : Nat × Nat → Nat) (gp wins : Nat → Nat)
    (rng : RoundRng) (numAttempts : Nat) (skipSelection : Bool)
    (h4 : ¬ players.length < 4) (h0 : ¬ maxMatchesOf players numCourts = 0) :
    (∃ s m, attemptLoop (playingOf players numCourts gp rng skipSelection)
        (maxMatchesOf players numCourts) pp po wins rng.cand numAttempts =
        some (s, m) ∧
      generateRound players numCourts pp po gp wins rng numAttempts
        skipSelection = m) ∨
    (attemptLoop (playingOf players numCourts gp rng skipSelection)
        (maxMatchesOf players numCourts) pp po wins rng.cand numAttempts =
        none ∧
      generateRound players numCourts pp po gp wins rng numAttempts
        skipSelection =
      generateFallback
        (rng.fallback (playingOf players numCourts gp rng skipSelection))
        (maxMatchesOf players numCourts)) := by
  unfold generateRound
  rw [if_neg h4, if_neg h0]
  cases h : attemptLoop (playingOf players numCourts gp rng skipSelection)
      (maxMatchesOf players numCourts) pp po wins rng.cand numAttempts with
  | none => right; exact ⟨rfl, rfl⟩
  | some b =>
    rcases b with ⟨s, m⟩
    left
    exact ⟨s, m, rfl, rfl⟩

theorem maxMatchesOf_pos {players : List Player} {numCourts : Nat}
    (h4 : 4 ≤ players.length) (hc : 1 ≤ numCourts) :
    ¬ maxMatchesOf players numCourts = 0 := by
  unfold maxMatchesOf
  omega

/-- C1: with at least 4 players of pairwise-distinct ids and at least one
court, every match of the generated round has two 2-player teams and no
player id occurs twice anywhere in the round, on either the candidate path
or the fallback path. -/
theorem C1_round_players_distinct (players : List Player) (numCourts : Nat)
    (pp : Nat × Nat → Bool) (po : Nat × Nat → Nat) (gp wins : Nat → Nat)
    (rng : RoundRng) (numAttempts : Nat) (skipSelection : Bool)
    (hv : rng.Valid) (hnd : (ids players).Nodup)
    (h4 : 4 ≤ players.length) (hc : 1 ≤ numCourts) :
    (∀ m ∈ generateRound players numCourts pp po gp wins rng numAttempts
        skipSelection, m.team1.length = 2 ∧ m.team2.length = 2) ∧
    (roundIds (generateRound players numCourts pp po gp wins rng numAttempts
        skipSelection)).Nodup := by
  obtain ⟨hsel, hcand, hfall⟩ := hv
  have hndp : (ids (playingOf players numCourts gp rng skipSelection)).Nodup :=
    playingOf_ids_nodup (hsel players) hnd
  have hlenp := playingOf_length players numCourts gp rng skipSelection (hsel players)
  have h4' : ¬ players.length < 4 := by omega
  have h0 := maxMatchesOf_pos h4 hc
  rcases generateRound_split pp po gp wins rng numAttempts skipSelection h4' h0
    with ⟨s, m, hloop, heq⟩ | ⟨_, heq⟩
  · rw [heq]
    obtain ⟨_, ⟨t₀, _, hgen, _⟩, _⟩ :=
      attemptLoop_some_spec _ _ _ _ _ _ numAttempts s m hloop
    refine ⟨?_, generateCandidate_roundIds_nodup (hcand t₀) hndp hgen⟩
    rw [(generateCandidate_some hgen).1]
    exact buildMatches_teams
  · rw [heq]
    have hlf : maxMatchesOf players numCourts * 4 ≤
        (rng.fallback (playingOf players numCourts gp rng skipSelection)).length := by
      rw [(hfall _).length_eq]
      exact hlenp
    have hndf : (ids (rng.fallback
        (playingOf players numCourts gp rng skipSelection))).Nodup := by
      have h2 : (ids (rng.fallback
          (playingOf players numCourts gp rng skipSelection))).Perm
          (ids (playingOf players numCourts gp rng skipSelection)) := by
        unfold ids
        exact (hfall _).map _
      exact h2.nodup_iff.mpr hndp
    exact ⟨generateFallback_teams hlf, generateFallback_roundIds_nodup hlf hndf⟩

/-- C2: the round is empty exactly when fewer than 4 players are supplied or
`min(num_courts, len(players) // 4)` is zero; with ≥ 4 players and ≥ 1 court
the result is always non-empty — the empty list is the only failure signal. -/
theorem C2_empty_iff (players : List Player) (numCourts : Nat)
    (pp : Nat × Nat → Bool) (po : Nat × Nat → Nat) (gp wins : Nat → Nat)
    (rng : RoundRng) (numAttempts : Nat) (skipSelection : Bool)
    (hv : rng.Valid) :
    generateRound players numCourts pp po gp wins rng numAttempts
      skipSelection = [] ↔
    players.length < 4 ∨ min numCourts (players.length / 4) = 0 := by
  obtain ⟨hsel, _, hfall⟩ := hv
  by_cases h4 : players.length < 4
  · simp [generateRound_of_small pp po gp wins rng numAttempts skipSelection h4,
      h4]
  · by_cases h0 : maxMatchesOf players numCourts = 0
    · have h0' : min numCourts (players.length / 4) = 0 := h0
      simp [generateRound_of_zero pp po gp wins rng numAttempts skipSelection
        h4 h0, h0']
    · have hlenp := playingOf_length players numCourts gp rng skipSelection (hsel players)
      have hne : generateRound players numCourts pp po gp wins rng numAttempts
          skipSelection ≠ [] := by
        rcases generateRound_split pp po gp wins rng numAttempts skipSelection
          h4 h0 with ⟨s, m, hloop, heq⟩ | ⟨_, heq⟩
        · rw [heq]
          obtain ⟨_, ⟨t₀, _, hgen, _⟩, _⟩ :=
            attemptLoop_some_spec _ _ _ _ _ _ numAttempts s m hloop
          have hlm := generateCandidate_some_length hgen
          intro hcon
          rw [hcon] at hlm
          simp at hlm
          exact h0 hlm.symm
        · rw [heq]
          have hlf : maxMatchesOf players numCourts * 4 ≤
              (rng.fallback
                (playingOf players numCourts gp rng skipSelection)).length := by
            rw [(hfall _).length_eq]
            exact hlenp
          have hlm := generateFallback_length hlf
          intro hcon
          rw [hcon] at hlm
          simp at hlm
          exact h0 hlm.symm
      have h0' : ¬ min numCourts (players.length / 4) = 0 := h0
      simp [hne, h4, h0']

/-- C3: every non-empty round has exactly `min(num_courts, len(players) // 4)`
matches, and its court numbers are `1, 2, …, match_count` in list order. -/
theorem C3_match_count_courts (players : List Player) (numCourts : Nat)
    (pp : Nat × Nat → Bool) (po : Nat × Nat → Nat) (gp wins : Nat → Nat)
    (rng : RoundRng) (numAttempts : Nat) (skipSelection : Bool)
    (hv : rng.Valid)
    (hne : generateRound players numCourts pp po gp wins rng numAttempts
      skipSelection ≠ []) :
    (generateRound players numCourts pp po gp wins rng numAttempts
      skipSelection).length = min numCourts (players.length / 4) ∧
    (generateRound players numCourts pp po gp wins rng numAttempts
      skipSelection).map (fun m => m.court) =
    (List.range (generateRound players numCourts pp po gp wins rng numAttempts
      skipSelection).length).map (fun i => i + 1) := by
  obtain ⟨hsel, hcand, hfall⟩ := hv
  have h4 : ¬ players.length < 4 := by
    intro h4
    exact hne (generateRound_of_small pp po gp wins rng numAttempts
      skipSelection h4)
  have h0 : ¬ maxMatchesOf players numCourts = 0 := by
    intro h0
    exact hne (generateRound_of_zero pp po gp wins rng numAttempts
      skipSelection h4 h0)
  have hlenp := playingOf_length players numCourts gp rng skipSelection (hsel players)
  rcases generateRound_split pp po gp wins rng numAttempts skipSelection h4 h0
    with ⟨s, m, hloop, heq⟩ | ⟨_, heq⟩
  · obtain ⟨_, ⟨t₀, _, hgen, _⟩, _⟩ :=
      attemptLoop_some_spec _ _ _ _ _ _ numAttempts s m hloop
    obtain ⟨hm, _⟩ := generateCandidate_some hgen
    rw [heq, hm, buildMatches_length, buildMatches_courts]
    exact ⟨rfl, rfl⟩
  · have hlf : maxMatchesOf players numCourts * 4 ≤
        (rng.fallback (playingOf players numCourts gp rng skipSelection)).length := by
      rw [(hfall _).length_eq]
      exact hlenp
    rw [heq, generateFallback_length hlf, generateFallback_courts hlf]
    exact ⟨rfl, rfl⟩

/-! ### The scorer -/

theorem scoreMatch_eq_spec (pp : Nat × Nat → Bool) (po : Nat × Nat → Nat)
    (wins : Nat → Nat) (court : Nat) (a b c d : Player) :
    scoreMatch pp po wins ⟨court, [a, b], [c, d]⟩ =
    specMatchScore pp po wins a b c d := by
  simp only [scoreMatch, specMatchScore, teamPairKey, teamWins,
    List.map_cons, List.map_nil, List.sum_cons, List.sum_nil,
    List.getD_cons_zero, List.getD_cons_succ]
  ring_nf

theorem foldl_add_score (pp : Nat × Nat → Bool) (po : Nat × Nat → Nat)
    (wins : Nat → Nat) : ∀ (cand : List Match) (a : Int),
    cand.foldl (fun score m => score + scoreMatch pp po wins m) a =
    a + (cand.map (scoreMatch pp po wins)).sum := by
  intro cand
  induction cand with
  | nil => intro a; simp
  | cons m l ih =>
    intro a
    simp only [List.foldl_cons, List.map_cons, List.sum_cons, ih]
    ring

theorem scoreCandidate_eq_sum (cand : List Match) (pp : Nat × Nat → Bool)
    (po : Nat × Nat → Nat) (wins : Nat → Nat) :
    scoreCandidate cand pp po wins =
    (cand.map (scoreMatch pp po wins)).sum := by
  unfold scoreCandidate
  rw [foldl_add_score]
  ring

theorem exists_pair_of_length_two {l : List Player} (h : l.length = 2) :
    ∃ a b, l = [a, b] := by
  match l, h with
  | [a, b], _ => exact ⟨a, b, rfl⟩

/-- C4: `_score_candidate` returns exactly the sum, over all matches, of the
specification's per-match formula. -/
theorem C4_score_is_sum_of_spec (cand : List Match) (pp : Nat × Nat → Bool)
    (po : Nat × Nat → Nat) (wins : Nat → Nat)
    (h : ∀ m ∈ cand, m.team1.length = 2 ∧ m.team2.length = 2) :
    scoreCandidate cand pp po wins =
    (cand.map (fun m => specMatchScore pp po wins
      (m.team1.getD 0 default) (m.team1.getD 1 default)
      (m.team2.getD 0 default) (m.team2.getD 1 default))).sum := by
  rw [scoreCandidate_eq_sum]
  refine congrArg List.sum (List.map_congr_left ?_)
  intro m hm
  obtain ⟨h1, h2⟩ := h m hm
  rcases m with ⟨court, t1, t2⟩
  simp only at h1 h2
  obtain ⟨a, b, rfl⟩ := exists_pair_of_length_two h1
  obtain ⟨c, d, rfl⟩ := exists_pair_of_length_two h2
  rw [scoreMatch_eq_spec]
  simp [List.getD]

/-- C5: the selector returns the whole list when it is short enough;
otherwise it returns exactly `needed` players obtained by stable-sorting the
shuffled list by games played and taking a prefix, so every selected player
has at most as many games played as every non-selected player. -/
theorem C5_selector_spec (players shuffled : List Player) (needed : Nat)
    (gp : Nat → Nat) (hperm : shuffled.Perm players) :
    (players.length ≤ needed →
      selectPlayers players needed gp shuffled = players) ∧
    (needed < players.length →
      (selectPlayers players needed gp shuffled).length = needed ∧
      ∃ rest, (selectPlayers players needed gp shuffled ++ rest).Perm players ∧
        ∀ p ∈ selectPlayers players needed gp shuffled, ∀ q ∈ rest,
          gp p.id ≤ gp q.id) := by
  constructor
  · intro h
    exact selectPlayers_of_le gp h
  · intro h
    refine ⟨selectPlayers_length gp (by omega) hperm, ?_⟩
    have htrans : ∀ a b c : Player, decide (gp a.id ≤ gp b.id) = true →
        decide (gp b.id ≤ gp c.id) = true →
        decide (gp a.id ≤ gp c.id) = true := by
      intro a b c h1 h2
      simp at h1 h2 ⊢
      omega
    have htot : ∀ a b : Player,
        (decide (gp a.id ≤ gp b.id) || decide (gp b.id ≤ gp a.id)) = true := by
      intro a b
      simp
      omega
    have hsort := List.sorted_mergeSort htrans htot shuffled
    unfold selectPlayers
    rw [if_neg (by omega : ¬ players.length ≤ needed)]
    refine ⟨(shuffled.mergeSort
      (fun a b => decide (gp a.id ≤ gp b.id))).drop needed, ?_, ?_⟩
    · rw [List.take_append_drop]
      exact (List.mergeSort_perm shuffled _).trans hperm
    · rw [← List.take_append_drop needed (shuffled.mergeSort
        (fun a b => decide (gp a.id ≤ gp b.id)))] at hsort
      obtain ⟨-, -, hcross⟩ := List.pairwise_append.mp hsort
      intro p hp q hq
      have := hcross p hp q hq
      simpa using this

/-- C6: a stored best candidate is only replaced by a strictly higher score,
so the loop's final best is the earliest valid candidate attaining the
maximum score over all valid candidates of the run. -/
theorem C6_first_max_wins (playing : List Player) (k : Nat)
    (pp : Nat × Nat → Bool) (po : Nat × Nat → Nat) (wins : Nat → Nat)
    (rng : Nat → CandRng) (numAttempts : Nat) (s : Int) (m : List Match)
    (h : attemptLoop playing k pp po wins rng numAttempts = some (s, m)) :
    (∀ (t : Nat) (bs : Int) (bm c : List Match),
      generateCandidate playing k pp (rng t) = some c →
      ¬ bs < scoreCandidate c pp po wins →
      attemptStep playing k pp po wins rng (some (bs, bm)) t = some (bs, bm)) ∧
    scoreCandidate m pp po wins = s ∧
    (∃ t₀, t₀ < numAttempts ∧
      generateCandidate playing k pp (rng t₀) = some m ∧
      ∀ t < t₀, ∀ c, generateCandidate playing k pp (rng t) = some c →
        scoreCandidate c pp po wins < s) ∧
    (∀ t < numAttempts, ∀ c,
      generateCandidate playing k pp (rng t) = some c →
      scoreCandidate c pp po wins ≤ s) := by
  refine ⟨?_, attemptLoop_some_spec playing k pp po wins rng numAttempts s m h⟩
  intro t bs bm c hc hn
  rw [attemptStep_some_of_some_best bs bm hc, if_neg hn]

theorem getD_take {l : List (Player × Player)} {n i : Nat}
    (d : Player × Player) (h : i < n) : (l.take n).getD i d = l.getD i d := by
  rw [List.getD_eq_getElem?_getD, List.getD_eq_getElem?_getD,
    List.getElem?_take, if_pos h]

theorem buildMatches_take (pairs : List (Player × Player)) (k : Nat) :
    buildMatches (pairs.take (k * 2)) k = buildMatches pairs k := by
  unfold buildMatches
  apply List.map_congr_left
  intro i hi
  rw [List.mem_range] at hi
  rw [getD_take _ (by omega : i * 2 < k * 2),
    getD_take _ (by omega : i * 2 + 1 < k * 2)]

/-- C7: `_generate_candidate` fails exactly when the Pair Former produced
fewer than `2 × num_matches` pairs; otherwise it returns `num_matches`
matches built from the first `2 × num_matches` shuffled pairs only — any
excess pairs are dropped. -/
theorem C7_candidate_none_iff (players : List Player) (k : Nat)
    (pp : Nat × Nat → Bool) (rng : CandRng) :
    (generateCandidate players k pp rng = none ↔
      (candPairs players pp rng).length < k * 2) ∧
    (∀ r, generateCandidate players k pp rng = some r →
      r.length = k ∧
      r = buildMatches
        ((rng.shufflePairs (candPairs players pp rng)).take (k * 2)) k) := by
  refine ⟨generateCandidate_eq_none_iff, ?_⟩
  intro r hr
  refine ⟨generateCandidate_some_length hr, ?_⟩
  rw [(generateCandidate_some hr).1, buildMatches_take]

/-- C8: given at least `num_matches × 4` players with pairwise-distinct ids,
the fallback always returns exactly `num_matches` matches, slicing the
shuffled pool into consecutive groups of four (first two team1, last two
team2) with sequential court numbers; all ids in the result are distinct. -/
theorem C8_fallback_total (pool : List Player) (k : Nat)
    (σ : List Player → List Player) (hperm : (σ pool).Perm pool)
    (hlen : k * 4 ≤ pool.length) (hnd : (ids pool).Nodup) :
    (generateFallback (σ pool) k).length = k ∧
    generateFallback (σ pool) k = (List.range k).map (fun j =>
      { court := j + 1
        team1 := (((σ pool).drop (j * 4)).take 4).take 2
        team2 := ((((σ pool).drop (j * 4)).take 4).drop 2).take 2 }) ∧
    (roundIds (generateFallback (σ pool) k)).Nodup := by
  have hl : k * 4 ≤ (σ pool).length := by
    rw [hperm.length_eq]
    exact hlen
  have hndσ : (ids (σ pool)).Nodup := by
    have h2 : (ids (σ pool)).Perm (ids pool) := by
      unfold ids
      exact hperm.map _
    exact h2.nodup_iff.mpr hnd
  exact ⟨generateFallback_length hl, generateFallback_closed hl,
    generateFallback_roundIds_nodup hl hndσ⟩

/-! ### Counting pairs for the unreachability of the fallback -/

theorem length_filter_ne (a : Nat) : ∀ (l : List Player), (ids l).Nodup →
    a ∈ ids l →
    (l.filter (fun x => decide (¬ x.id = a))).length + 1 = l.length := by
  intro l
  induction l with
  | nil => intro _ h; simp [ids] at h
  | cons y l ih =>
    intro hnd ha
    have hnd2 : (∀ x ∈ l, ¬ x.id = y.id) ∧
        (List.map (fun p => p.id) l).Nodup := by
      simpa [ids] using hnd
    by_cases hy : y.id = a
    · rw [List.filter_cons, if_neg (by simp [hy])]
      have hself : l.filter (fun x => decide (¬ x.id = a)) = l := by
        apply List.filter_eq_self.mpr
        intro x hx
        simp only [decide_eq_true_eq]
        intro hc
        exact hnd2.1 x hx (by rw [hc, hy])
      rw [hself]
      simp
    · rw [List.filter_cons, if_pos (by simp [hy])]
      have ha2 : a = y.id ∨ a ∈ ids l := by simpa [ids] using ha
      rcases ha2 with rfl | ha'
      · exact absurd rfl hy
      · have := ih hnd2.2 ha'
        simp only [List.length_cons]
        omega

theorem length_filter_not_used : ∀ (u : List Nat) (l : List Player),
    u.Nodup → (ids l).Nodup → (∀ x ∈ u, x ∈ ids l) →
    (l.filter (fun x => decide (x.id ∉ u))).length + u.length = l.length := by
  intro u
  induction u with
  | nil =>
    intro l _ _ _
    simp
  | cons a u' ih =>
    intro l hu hnd hsub
    have hau' : a ∉ u' := (List.nodup_cons.mp hu).1
    have hu' : u'.Nodup := (List.nodup_cons.mp hu).2
    have hpred : ∀ x ∈ l, (decide (x.id ∉ a :: u')) =
        (decide (x.id ∉ u') && decide (¬ x.id = a)) := by
      intro x _
      by_cases h1 : x.id = a <;> by_cases h2 : x.id ∈ u' <;> simp [h1, h2]
    rw [List.filter_congr hpred, ← List.filter_filter]
    have hlne := length_filter_ne a l hnd (hsub a (List.mem_cons_self _ _))
    have hnd' : (ids (l.filter (fun x => decide (¬ x.id = a)))).Nodup :=
      ids_filter_nodup _ hnd
    have hsub' : ∀ x ∈ u',
        x ∈ ids (l.filter (fun x => decide (¬ x.id = a))) := by
      intro x hx
      rcases List.mem_map.mp (hsub x (List.mem_cons_of_mem _ hx)) with
        ⟨y, hy, hye⟩
      refine List.mem_map.mpr ⟨y, ?_, hye⟩
      rw [List.mem_filter]
      refine ⟨hy, ?_⟩
      simp only [decide_eq_true_eq]
      intro hc
      have hau : a ∈ u' := by rw [← hc, hye]; exact hx
      exact hau' hau
    have := ih _ hu' hnd' hsub'
    simp only [List.length_cons]
    omega

/-- The invariant of the state reached after the first two passes of
`_form_pairs`. -/
theorem formPairs_st2_inv {males females : List Player}
    (pp : Nat × Nat → Bool) {σM σF : List Player → List Player}
    (hMp : (σM males).Perm males) (hFp : (σF females).Perm females)
    (hnd : (ids (males ++ females)).Nodup) :
    PairInv (ids (σM males)) (ids (σF females))
      (pass2
        ((σF females).filter (fun f => decide (f.id ∉
          (pass1 pp (σF females) (σM males) ⟨[], [], []⟩).usedF)))
        ((σM males).filter (fun m => decide (m.id ∉
          (pass1 pp (σF females) (σM males) ⟨[], [], []⟩).usedM)))
        (pass1 pp (σF females) (σM males) ⟨[], [], []⟩)) := by
  rw [ids_append, List.nodup_append] at hnd
  obtain ⟨hndM, hndF, hdisj0⟩ := hnd
  have hms : (ids (σM males)).Perm (ids males) := hMp.map _
  have hfs : (ids (σF females)).Perm (ids females) := hFp.map _
  have hndms : (ids (σM males)).Nodup := hms.nodup_iff.mpr hndM
  have hdisj : ∀ x ∈ ids (σM males), x ∉ ids (σF females) := by
    intro x hx hx2
    exact hdisj0 (hms.mem_iff.mp hx) (hfs.mem_iff.mp hx2)
  have inv0 : PairInv (ids (σM males)) (ids (σF females)) ⟨[], [], []⟩ :=
    ⟨rfl, rfl, by simp [pairIds], by simp, by simp⟩
  have inv1 : PairInv (ids (σM males)) (ids (σF females))
      (pass1 pp (σF females) (σM males) ⟨[], [], []⟩) :=
    pass1_inv pp (σF females) _ _ hdisj (fun f hf => mem_ids_of_mem hf)
      (σM males) ⟨[], [], []⟩ inv0 hndms (fun m hm => mem_ids_of_mem hm)
      (by simp)
  apply pass2_inv _ _ _ hdisj
  · intro f hf
    exact mem_ids_of_mem (List.mem_filter.mp hf).1
  · exact inv1
  · exact ids_filter_nodup _ hndms
  · intro m hm
    exact mem_ids_of_mem (List.mem_filter.mp hm).1
  · intro m hm
    have := (List.mem_filter.mp hm).2
    simpa using this

/-- Counting at the abstract state level: the total number of pairs is half
the pool (rounded down). -/
theorem pairs_append_pass3_length (pp : Nat × Nat → Bool)
    {σL : List Player → List Player} (hLp : ∀ l, (σL l).Perm l)
    {msS fsS : List Player}
    (hndms : (ids msS).Nodup) (hndfs : (ids fsS).Nodup)
    (hdisj : ∀ x ∈ ids msS, x ∉ ids fsS)
    (st2 : PairState) (inv : PairInv (ids msS) (ids fsS) st2) :
    (st2.pairs ++ pass3 pp (σL
      (msS.filter (fun m => decide (m.id ∉ st2.usedM)) ++
       fsS.filter (fun f => decide (f.id ∉ st2.usedF))))).length =
    (msS.length + fsS.length) / 2 := by
  obtain ⟨h1, h2, h3, h4, h5⟩ := inv
  have hndM : st2.usedM.Nodup := by
    rw [h1]
    exact nodup_fst_of_pairIds_nodup h3
  have hndF : st2.usedF.Nodup := by
    rw [h2]
    exact nodup_snd_of_pairIds_nodup h3
  have hsubM : ∀ x ∈ st2.usedM, x ∈ ids msS := by
    intro x hx
    rw [h1] at hx
    rcases List.mem_map.mp hx with ⟨p, hp, rfl⟩
    exact h4 p hp
  have hsubF : ∀ x ∈ st2.usedF, x ∈ ids fsS := by
    intro x hx
    rw [h2] at hx
    rcases List.mem_map.mp hx with ⟨p, hp, rfl⟩
    exact h5 p hp
  have hcM := length_filter_not_used st2.usedM msS hndM hndms hsubM
  have hcF := length_filter_not_used st2.usedF fsS hndF hndfs hsubF
  have hlM : st2.usedM.length = st2.pairs.length := by rw [h1]; simp
  have hlF : st2.usedF.length = st2.pairs.length := by rw [h2]; simp
  rw [List.length_append, pass3_length, (hLp _).length_eq,
    List.length_append]
  omega

/-- `_form_pairs` always pairs all players except at most one: it returns
exactly `(len(males) + len(females)) / 2` pairs whenever all ids are
pairwise distinct, for every partnership history. -/
theorem formPairs_length {males females : List Player}
    (pp : Nat × Nat → Bool) {σM σF σL : List Player → List Player}
    (hMp : (σM males).Perm males) (hFp : (σF females).Perm females)
    (hLp : ∀ l, (σL l).Perm l)
    (hnd : (ids (males ++ females)).Nodup) :
    (formPairs males females pp σM σF σL).length =
    (males.length + females.length) / 2 := by
  have hnd' := hnd
  rw [ids_append, List.nodup_append] at hnd'
  obtain ⟨hndM, hndF, hdisj0⟩ := hnd'
  have hms : (ids (σM males)).Perm (ids males) := hMp.map _
  have hfs : (ids (σF females)).Perm (ids females) := hFp.map _
  have hndms : (ids (σM males)).Nodup := hms.nodup_iff.mpr hndM
  have hndfs : (ids (σF females)).Nodup := hfs.nodup_iff.mpr hndF
  have hdisj : ∀ x ∈ ids (σM males), x ∉ ids (σF females) := by
    intro x hx hx2
    exact hdisj0 (hms.mem_iff.mp hx) (hfs.mem_iff.mp hx2)
  have hres := pairs_append_pass3_length pp hLp hndms hndfs hdisj _
    (formPairs_st2_inv pp hMp hFp hnd)
  have hlm : (σM males).length = males.length := hMp.length_eq
  have hlf : (σF females).length = females.length := hFp.length_eq
  have hlm2 : (ids (σM males)).length = males.length := by
    unfold ids
    rw [List.length_map]
    exact hlm
  have hlf2 : (ids (σF females)).length = females.length := by
    unfold ids
    rw [List.length_map]
    exact hlf
  have hres2 : (formPairs males females pp σM σF σL).length =
      ((σM males).length + (σF females).length) / 2 := hres
  rw [hres2, hlm, hlf]

theorem length_filter_gender_partition : ∀ (l : List Player),
    (∀ p ∈ l, p.gender = "M" ∨ p.gender = "F") →
    (l.filter (fun p => decide (p.gender = "M"))).length +
    (l.filter (fun p => decide (p.gender = "F"))).length = l.length := by
  intro l
  induction l with
  | nil => intro _; simp
  | cons p l ih =>
    intro hg
    have hp := hg p (List.mem_cons_self _ _)
    have ih' := ih (fun q hq => hg q (List.mem_cons_of_mem _ hq))
    rcases hp with hm | hf
    · have hnf : ¬ p.gender = "F" := by
        rw [hm]
        decide
      rw [List.filter_cons, List.filter_cons, if_pos (by simp [hm]),
        if_neg (by simp [hnf])]
      simp only [List.length_cons]
      omega
    · have hnm : ¬ p.gender = "M" := by
        rw [hf]
        decide
      rw [List.filter_cons, List.filter_cons, if_neg (by simp [hnm]),
        if_pos (by simp [hf])]
      simp only [List.length_cons]
      omega

/-- Under distinct ids and two-valued genders, the pair count of one
candidate attempt is exactly half the pool. -/
theorem candPairs_length {players : List Player} (pp : Nat × Nat → Bool)
    {rng : CandRng} (hv : rng.Valid) (hnd : (ids players).Nodup)
    (hg : ∀ p ∈ players, p.gender = "M" ∨ p.gender = "F") :
    (candPairs players pp rng).length = players.length / 2 := by
  obtain ⟨hP, hM, hF, hL, _⟩ := hv
  have hshuf : (ids (rng.shufflePlayers players)).Nodup := by
    have h2 : (ids (rng.shufflePlayers players)).Perm (ids players) := by
      unfold ids
      exact (hP players).map _
    exact h2.nodup_iff.mpr hnd
  have hgs : ∀ p ∈ rng.shufflePlayers players,
      p.gender = "M" ∨ p.gender = "F" :=
    fun p hp => hg p ((hP players).mem_iff.mp hp)
  have hflen := length_filter_gender_partition _ hgs
  have := formPairs_length pp (hM _) (hF _) hL (filter_genders_nodup hshuf)
  unfold candPairs
  rw [this, hflen, (hP players).length_eq]

/-- With distinct ids, two-valued genders and enough players, a candidate
attempt never fails. -/
theorem generateCandidate_ne_none {players : List Player} {k : Nat}
    (pp : Nat × Nat → Bool) {rng : CandRng} (hv : rng.Valid)
    (hnd : (ids players).Nodup)
    (hg : ∀ p ∈ players, p.gender = "M" ∨ p.gender = "F")
    (hlen : k * 4 ≤ players.length) :
    generateCandidate players k pp rng ≠ none := by
  rw [Ne, generateCandidate_eq_none_iff, candPairs_length pp hv hnd hg]
  omega

/-- C9: with two-valued gender tags and pairwise-distinct ids, the Pair
Former pairs everyone except at most one player, every candidate attempt
with enough players succeeds, and therefore the fallback branch of
`generate_round` is unreachable: the returned round always comes from the
scored attempt loop. -/
theorem C9_fallback_unreachable (players : List Player) (numCourts : Nat)
    (pp : Nat × Nat → Bool) (po : Nat × Nat → Nat) (gp wins : Nat → Nat)
    (rng : RoundRng) (numAttempts : Nat) (skipSelection : Bool)
    (hv : rng.Valid) (hnd : (ids players).Nodup)
    (hg : ∀ p ∈ players, p.gender = "M" ∨ p.gender = "F")
    (h4 : 4 ≤ players.length) (hc : 1 ≤ numCourts) (hA : 1 ≤ numAttempts) :
    (∀ (males females : List Player) (σM σF σL : List Player → List Player),
      (σM males).Perm males → (σF females).Perm females →
      (∀ l, (σL l).Perm l) → (ids (males ++ females)).Nodup →
      (formPairs males females pp σM σF σL).length =
        (males.length + females.length) / 2) ∧
    (∀ t, generateCandidate (playingOf players numCourts gp rng skipSelection)
        (maxMatchesOf players numCourts) pp (rng.cand t) ≠ none) ∧
    (∃ s m, attemptLoop (playingOf players numCourts gp rng skipSelection)
        (maxMatchesOf players numCourts) pp po wins rng.cand numAttempts =
        some (s, m) ∧
      generateRound players numCourts pp po gp wins rng numAttempts
        skipSelection = m) := by
  obtain ⟨hsel, hcand, hfall⟩ := hv
  have hndp : (ids (playingOf players numCourts gp rng skipSelection)).Nodup :=
    playingOf_ids_nodup (hsel players) hnd
  have hgp : ∀ p ∈ playingOf players numCourts gp rng skipSelection,
      p.gender = "M" ∨ p.gender = "F" := by
    intro p hp
    obtain ⟨l', hsub, hpm⟩ := playingOf_sub players numCourts gp rng skipSelection (hsel players)
    exact hg p (hpm.mem_iff.mp (hsub.subset hp))
  have hlenp := playingOf_length players numCourts gp rng skipSelection (hsel players)
  have hnone : ∀ t, generateCandidate
      (playingOf players numCourts gp rng skipSelection)
      (maxMatchesOf players numCourts) pp (rng.cand t) ≠ none :=
    fun t => generateCandidate_ne_none pp (hcand t) hndp hgp hlenp
  refine ⟨?_, hnone, ?_⟩
  · intro males females σM σF σL hMp hFp hLp hnd2
    exact formPairs_length pp hMp hFp hLp hnd2
  · have h4' : ¬ players.length < 4 := by omega
    have h0 := maxMatchesOf_pos h4 hc
    rcases generateRound_split pp po gp wins rng numAttempts skipSelection h4'
      h0 with ⟨s, m, hloop, heq⟩ | ⟨hnoneL, _⟩
    · exact ⟨s, m, hloop, heq⟩
    · exfalso
      exact hnone 0
        ((attemptLoop_none_iff _ _ _ _ _ _ numAttempts).mp hnoneL 0 (by omega))

/-- C10: the recursions and list accesses of the engine are well defined on
every input: the pass-3 partner index is always in bounds of the remaining
leftover list, each pass-3 iteration removes exactly two players (so the
while loop terminates), in the candidate builder every access
`pairs[i*2 + 1]` is in bounds whenever a candidate is returned, and the
attempt loop is a fold over exactly `num_attempts` attempt indices. -/
theorem C10_total_and_in_bounds :
    (∀ (pp : Nat × Nat → Bool) (p1 : Player) (rest : List Player),
      rest ≠ [] → pass3Idx pp p1 rest < rest.length) ∧
    (∀ (pp : Nat × Nat → Bool) (l : List Player), 2 ≤ l.length →
      (l.dropLast.eraseIdx
        (pass3Idx pp (l.getLastD default) l.dropLast)).length =
      l.length - 2) ∧
    (∀ (players : List Player) (k : Nat) (pp : Nat × Nat → Bool)
      (rng : CandRng) (r : List Match), rng.Valid →
      generateCandidate players k pp rng = some r →
      ∀ i < k, i * 2 + 1 <
        (rng.shufflePairs (candPairs players pp rng)).length) ∧
    (∀ (playing : List Player) (k : Nat) (pp : Nat × Nat → Bool)
      (po : Nat × Nat → Nat) (wins : Nat → Nat) (rng : Nat → CandRng)
      (numAttempts : Nat),
      attemptLoop playing k pp po wins rng numAttempts =
      (List.range numAttempts).foldl
        (attemptStep playing k pp po wins rng) none) := by
  refine ⟨?_, ?_, ?_, ?_⟩
  · intro pp p1 rest h
    exact pass3Idx_lt pp p1 h
  · intro pp l hl
    have hrne : l.dropLast ≠ [] := dropLast_ne_nil_of_two_le hl
    have hi := pass3Idx_lt pp (l.getLastD default) hrne
    rw [List.length_eraseIdx, if_pos hi, List.length_dropLast]
    omega
  · intro players k pp rng r hv hr i hi
    have hlen := (generateCandidate_some hr).2
    have hperm := hv.2.2.2.2 (candPairs players pp rng)
    rw [hperm.length_eq]
    omega
  · intro playing k pp po wins rng numAttempts
    rfl

/-! ### Concrete witnesses -/

theorem C1_witness :
    (∀ m ∈ generateRound samplePlayers 2 emptyPP zeroPO zeroMap zeroMap
        idRoundRng 1 false, m.team1.length = 2 ∧ m.team2.length = 2) ∧
    (roundIds (generateRound samplePlayers 2 emptyPP zeroPO zeroMap zeroMap
        idRoundRng 1 false)).Nodup :=
  C1_round_players_distinct samplePlayers 2 emptyPP zeroPO zeroMap zeroMap
    idRoundRng 1 false idRoundRng_valid (by decide) (by decide) (by decide)

theorem C2_witness :
    generateRound samplePlayers 2 emptyPP zeroPO zeroMap zeroMap idRoundRng 1
      false = [] ↔
    samplePlayers.length < 4 ∨ min 2 (samplePlayers.length / 4) = 0 :=
  C2_empty_iff samplePlayers 2 emptyPP zeroPO zeroMap zeroMap idRoundRng 1
    false idRoundRng_valid

theorem C3_witness :
    (generateRound samplePlayers 2 emptyPP zeroPO zeroMap zeroMap idRoundRng 1
      false).length = min 2 (samplePlayers.length / 4) ∧
    (generateRound samplePlayers 2 emptyPP zeroPO zeroMap zeroMap idRoundRng 1
      false).map (fun m => m.court) =
    (List.range (generateRound samplePlayers 2 emptyPP zeroPO zeroMap zeroMap
      idRoundRng 1 false).length).map (fun i => i + 1) :=
  C3_match_count_courts samplePlayers 2 emptyPP zeroPO zeroMap zeroMap
    idRoundRng 1 false idRoundRng_valid (by decide)

theorem C4_witness :
    scoreCandidate [sampleMatch] emptyPP zeroPO zeroMap =
    ([sampleMatch].map (fun m => specMatchScore emptyPP zeroPO zeroMap
      (m.team1.getD 0 default) (m.team1.getD 1 default)
      (m.team2.getD 0 default) (m.team2.getD 1 default))).sum :=
  C4_score_is_sum_of_spec [sampleMatch] emptyPP zeroPO zeroMap (by decide)

theorem C5_witness :
    (fivePlayers.length ≤ 4 →
      selectPlayers fivePlayers 4 zeroMap fivePlayers = fivePlayers) ∧
    (4 < fivePlayers.length →
      (selectPlayers fivePlayers 4 zeroMap fivePlayers).length = 4 ∧
      ∃ rest, (selectPlayers fivePlayers 4 zeroMap fivePlayers ++ rest).Perm
          fivePlayers ∧
        ∀ p ∈ selectPlayers fivePlayers 4 zeroMap fivePlayers, ∀ q ∈ rest,
          zeroMap p.id ≤ zeroMap q.id) :=
  C5_selector_spec fivePlayers fivePlayers 4 zeroMap (List.Perm.refl _)

theorem C6_witness :
    (∀ (t : Nat) (bs : Int) (bm c : List Match),
      generateCandidate samplePlayers 2 emptyPP ((fun _ => idCandRng) t) =
        some c →
      ¬ bs < scoreCandidate c emptyPP zeroPO zeroMap →
      attemptStep samplePlayers 2 emptyPP zeroPO zeroMap (fun _ => idCandRng)
        (some (bs, bm)) t = some (bs, bm)) ∧
    scoreCandidate sampleBest emptyPP zeroPO zeroMap = 60 ∧
    (∃ t₀, t₀ < 1 ∧
      generateCandidate samplePlayers 2 emptyPP ((fun _ => idCandRng) t₀) =
        some sampleBest ∧
      ∀ t < t₀, ∀ c,
        generateCandidate samplePlayers 2 emptyPP ((fun _ => idCandRng) t) =
          some c →
        scoreCandidate c emptyPP zeroPO zeroMap < 60) ∧
    (∀ t < 1, ∀ c,
      generateCandidate samplePlayers 2 emptyPP ((fun _ => idCandRng) t) =
        some c →
      scoreCandidate c emptyPP zeroPO zeroMap ≤ 60) :=
  C6_first_max_wins samplePlayers 2 emptyPP zeroPO zeroMap (fun _ => idCandRng)
    1 60 sampleBest (by decide)

theorem C7_witness :
    (generateCandidate samplePlayers 2 emptyPP idCandRng = none ↔
      (candPairs samplePlayers emptyPP idCandRng).length < 2 * 2) ∧
    (∀ r, generateCandidate samplePlayers 2 emptyPP idCandRng = some r →
      r.length = 2 ∧
      r = buildMatches ((idCandRng.shufflePairs
        (candPairs samplePlayers emptyPP idCandRng)).take (2 * 2)) 2) :=
  C7_candidate_none_iff samplePlayers 2 emptyPP idCandRng

theorem C8_witness :
    (generateFallback ((fun l => l) samplePlayers) 2).length = 2 ∧
    generateFallback ((fun l => l) samplePlayers) 2 =
      (List.range 2).map (fun j =>
      { court := j + 1
        team1 := ((((fun l => l) samplePlayers).drop (j * 4)).take 4).take 2
        team2 :=
          (((((fun l => l) samplePlayers).drop (j * 4)).take 4).drop 2).take 2
        }) ∧
    (roundIds (generateFallback ((fun l => l) samplePlayers) 2)).Nodup :=
  C8_fallback_total samplePlayers 2 (fun l => l) (List.Perm.refl _)
    (by decide) (by decide)

theorem C9_witness :
    (∀ (males females : List Player) (σM σF σL : List Player → List Player),
      (σM males).Perm males → (σF females).Perm females →
      (∀ l, (σL l).Perm l) → (ids (males ++ females)).Nodup →
      (formPairs males females emptyPP σM σF σL).length =
        (males.length + females.length) / 2) ∧
    (∀ t, generateCandidate (playingOf samplePlayers 2 zeroMap idRoundRng
        false) (maxMatchesOf samplePlayers 2) emptyPP (idRoundRng.cand t) ≠
        none) ∧
    (∃ s m, attemptLoop (playingOf samplePlayers 2 zeroMap idRoundRng false)
        (maxMatchesOf samplePlayers 2) emptyPP zeroPO zeroMap idRoundRng.cand
        1 = some (s, m) ∧
      generateRound samplePlayers 2 emptyPP zeroPO zeroMap zeroMap idRoundRng
        1 false = m) :=
  C9_fallback_unreachable samplePlayers 2 emptyPP zeroPO zeroMap zeroMap
    idRoundRng 1 false idRoundRng_valid (by decide) (by decide) (by decide)
    (by decide) (by decide)

theorem C10_witness :
    pass3Idx emptyPP (Player.mk 1 "a" "M") [Player.mk 2 "b" "M"] <
      ([Player.mk 2 "b" "M"] : List Player).length :=
  C10_total_and_in_bounds.1 emptyPP (Player.mk 1 "a" "M")
    [Player.mk 2 "b" "M"] (by decide)
